import Mathlib

/-!
Verification of the execution-graph replay manager
(`train/compute/python/tools/eg_replay.py`, class `ExgrReplayManager`).

Each phase of the replay pipeline is shallowly embedded as a pure Lean
function over explicit state:

* `add_unique_tensor` / `analyze_pass1`  — the tensor identity resolver
  (`ExgrReplayManager.analyze_tensors`, first loop);
* `classify_node` / `classify`           — the instantiate-set classification
  (`analyze_tensors`, second loop);
* `dfs_traverse`                          — subgraph extraction
  (`extract_subgraph._dfs_traverse`);
* `find_qualified_ancestor`               — the ancestor walk of
  (`analyze_subgraph._bfs_traverse`);
* `build_func_state`                      — the fbgemm forward/backward stack
  (`build_func`);
* `alloc_input` / `allocate_node` / `allocate_tensors`
                                          — tensor allocation (`allocate_tensors`);
* `get_inputs` / `patch_args` / `run_op` / `replay_pass` / `replay_run`
                                          — the replay engine (`get_inputs`,
  `run_op`, and the iteration loops of `benchTime`).

Python dictionaries and sets are embedded as Lean functions with pointwise
update and as lists; machine integers are `Nat` (no overflow is relevant:
all ids and counters only grow by increments).  Exceptions and `exit(1)`
are embedded as `Except` values; external callables (torchscript functions,
fbgemm builders, random generators) are oracle parameters.  Buffer contents
are rationals (`ℚ`): the only arithmetic the manager itself performs on
buffer contents is the embedding-bag offset synthesis `i * (L / O)` with
Python true division, which is exact rational arithmetic before the
external tensor assignment.
-/

namespace EgReplay

/-- Trace-level tensor identifier.  In the source a tensor is identified by
the tuple `[tensor_id, storage_id, offset, num_elem, elem_bytes]`; the tuple
is only ever compared for equality and used as a dictionary key, so it is
embedded as an opaque `Nat`. -/
abbrev TId := Nat

/-- A recorded tensor shape (list of dimension extents). -/
abbrev Shape := List Nat

/-- One `(data_type, t_id, shape)` triple as yielded by the external helpers
`get_input_tensors` / `get_output_tensors`. -/
structure TRef where
  dtype : String
  tid : TId
  shape : Shape
  deriving DecidableEq, Repr

/-- One raw entry of `node.inputs` as consumed by `get_inputs` and the
embedding-bag offset patch: a tensor reference, a tensor list, one of the
sentinels `'<None>'`/`'<Generator>'`, a signed infinity literal, or an
opaque literal passed through unchanged. -/
inductive InItem where
  | tensor (t : TId)
  | tensorList (ts : List TId)
  | noneLit
  | infLit (neg : Bool)
  | lit (s : String)
  deriving DecidableEq, Repr

/-- The per-node data the replay manager reads from an execution-graph node:
id, name, the input/output tensor triples, the raw `node.inputs` list and
`node.input_shapes`.  (The tree structure is carried separately by `GNode`.) -/
structure PNode where
  id : Nat
  name : String
  ins : List TRef
  outs : List TRef
  rawInputs : List InItem
  inputShapes : List Shape
  deriving DecidableEq, Repr

/-! ## Tensor identity resolver (`analyze_tensors`, lines 161–191)

State of `ExgrReplayManager` touched by `add_unique_tensor`:
`original_unique_tensors`, `replay_unique_tensor_num`, `tensors_mapping`,
`replay_tensors_shapes`, `tensor_shapes`. -/

/-- The resolver state.  `originals` is the membership predicate of
`original_unique_tensors`; `num` is `replay_unique_tensor_num`; `mapping`
is `tensors_mapping` (keyed by `(node_id, t_id)`); `replayShapes` is
`replay_tensors_shapes`; `tensorShapes t` is the set `tensor_shapes[t]`
of `(replay_t_id, shape)` pairs, represented as a list. -/
structure RState where
  originals : TId → Bool
  num : Nat
  mapping : Nat → TId → Option Nat
  replayShapes : Nat → Option Shape
  tensorShapes : TId → List (Nat × Shape)

/-- The state of a freshly constructed `ExgrReplayManager`. -/
def initR : RState :=
  { originals := fun _ => false
    num := 0
    mapping := fun _ _ => none
    replayShapes := fun _ => none
    tensorShapes := fun _ => [] }

/-- `analyze_tensors.add_unique_tensor(node_id, t_id, shape)`: if the
identifier is unseen, mint the slot `num + 1`; otherwise scan
`tensor_shapes[t_id]` for an entry with an equal shape and reuse its slot;
otherwise mint a fresh slot and record the new `(slot, shape)` pair. -/
def add_unique_tensor (s : RState) (nid : Nat) (t : TId) (sh : Shape) : RState :=
  if s.originals t = false then
    { originals := fun u => if u = t then true else s.originals u
      num := s.num + 1
      mapping := fun n u => if n = nid ∧ u = t then some (s.num + 1) else s.mapping n u
      replayShapes := fun j => if j = s.num + 1 then some sh else s.replayShapes j
      tensorShapes := fun u =>
        if u = t then (s.num + 1, sh) :: s.tensorShapes u else s.tensorShapes u }
  else
    match (s.tensorShapes t).find? (fun p => decide (p.2 = sh)) with
    | some pr =>
        { s with mapping := fun n u => if n = nid ∧ u = t then some pr.1 else s.mapping n u }
    | none =>
        { originals := s.originals
          num := s.num + 1
          mapping := fun n u => if n = nid ∧ u = t then some (s.num + 1) else s.mapping n u
          replayShapes := fun j => if j = s.num + 1 then some sh else s.replayShapes j
          tensorShapes := fun u =>
            if u = t then (s.num + 1, sh) :: s.tensorShapes u else s.tensorShapes u }

/-- The slot that `add_unique_tensor` resolves for `(t, sh)` in state `s`
(the value it stores into `tensors_mapping`). -/
def resolveSlot (s : RState) (t : TId) (sh : Shape) : Nat :=
  if s.originals t = false then s.num + 1
  else
    match (s.tensorShapes t).find? (fun p => decide (p.2 = sh)) with
    | some pr => pr.1
    | none => s.num + 1

/-- First loop of `analyze_tensors` for a single node: every input triple,
then every output triple, is fed to `add_unique_tensor` when its identifier
has a nonzero dependency count (`t_id in self.dependency_permanent.keys()`). -/
def analyze_pass1_node (dep : TId → Bool) (s : RState) (n : PNode) : RState :=
  let s1 := n.ins.foldl
    (fun a r => if dep r.tid then add_unique_tensor a n.id r.tid r.shape else a) s
  n.outs.foldl
    (fun a r => if dep r.tid then add_unique_tensor a n.id r.tid r.shape else a) s1

/-- First loop of `analyze_tensors` over the sorted node list, starting from
the freshly initialised state. -/
def analyze_pass1 (dep : TId → Bool) (ns : List PNode) : RState :=
  ns.foldl (analyze_pass1_node dep) initR

/-- The resolver-state invariant maintained by `add_unique_tensor`:
every recorded `(slot, shape)` pair agrees with `replay_tensors_shapes`;
per identifier, a shape determines its slot; recorded slots are bounded by
the slot counter; slots above the counter are unassigned; an unseen
identifier has no recorded shapes. -/
structure RInv (s : RState) : Prop where
  shapeOf : ∀ t k sh, (k, sh) ∈ s.tensorShapes t → s.replayShapes k = some sh
  uniq : ∀ t k k' sh, (k, sh) ∈ s.tensorShapes t → (k', sh) ∈ s.tensorShapes t → k = k'
  bounded : ∀ t k sh, (k, sh) ∈ s.tensorShapes t → k ≤ s.num
  fresh : ∀ k, s.num < k → s.replayShapes k = none
  unseen : ∀ t, s.originals t = false → s.tensorShapes t = []

/-! ## Instantiate-set classification (`analyze_tensors`, lines 193–202)

The second loop of `analyze_tensors` simulates execution progress: scanning
`sorted_nodes` in order, a tracked input slot not yet in the simulated
output set joins `instantiate`, and every tracked output slot joins the
simulated output set.  The slot of an occurrence is read from the total
mapping `m` (`tensors_mapping` after pass 1). -/

/-- One step of the classification loop: the pair is
`(instantiate, output_set)`.  Inputs are examined against the output set as
it stood before this node; outputs are added afterwards, exactly as in the
source where the input loop precedes the output loop. -/
def classify_node (dep : TId → Bool) (m : Nat → TId → Nat)
    (st : List Nat × List Nat) (n : PNode) : List Nat × List Nat :=
  ( n.ins.foldl
      (fun a r => if dep r.tid = true ∧ m n.id r.tid ∉ st.2 then m n.id r.tid :: a else a)
      st.1
  , n.outs.foldl
      (fun a r => if dep r.tid = true then m n.id r.tid :: a else a)
      st.2 )

/-- The classification loop over the sorted node list; returns
`(instantiate, output_set)`. -/
def classify (dep : TId → Bool) (m : Nat → TId → Nat) (ns : List PNode) :
    List Nat × List Nat :=
  ns.foldl (classify_node dep m) ([], [])

/-- The tracked input slots of a node, via mapping `m`. -/
def inSlots (dep : TId → Bool) (m : Nat → TId → Nat) (n : PNode) : List Nat :=
  n.ins.filterMap (fun r => if dep r.tid = true then some (m n.id r.tid) else none)

/-- The tracked output slots of a node, via mapping `m`. -/
def outSlots (dep : TId → Bool) (m : Nat → TId → Nat) (n : PNode) : List Nat :=
  n.outs.filterMap (fun r => if dep r.tid = true then some (m n.id r.tid) else none)

/-! ## Replay engine (`get_inputs` lines 275–298, `run_op` lines 300–349,
`benchTime` pass loops lines 380–408)

The working registry `tensor_registry` is a dictionary from replay slot to
either a tensor or Python `None`; a missing key raises `KeyError`.  It is
embedded as `Reg V`: `none` = key absent, `some none` = bound to `None`,
`some (some v)` = bound to a tensor value.  The external torchscript/fbgemm
callables, output normalization included, are an oracle `invoke`: `none`
means the invocation (or output flattening) raised inside the `try` block.
Exceptions and `exit(1)` terminate the process; both are embedded as
`Except.error` carrying the failing node id. -/

/-- The working tensor registry. -/
def Reg (V : Type) : Type := Nat → Option (Option V)

/-- A resolved argument as built by `get_inputs`: a tensor value, a list of
tensor values (entries may be `None`), Python `None` (from the `'<None>'` /
`'<Generator>'` sentinels or a null-bound slot), a signed infinity, or a
passthrough literal. -/
inductive ArgVal (V : Type) where
  | tval (v : V)
  | tlist (vs : List (Option V))
  | nullArg
  | infArg (neg : Bool)
  | litArg (s : String)

/-- The environment of a replay pass: `hasFunc n` is `bool(self.funcs[n.id][0])`
(skip the node when falsy); `isFbF`, `fbIdx`, `isFbUnw` are the external
classifiers `is_fbgemm_forward`, `fbgemm_input_args_indices`,
`is_fbgemm_forward_unweighted`; `invoke` is the cached callable plus output
normalization (`none` = it raised); `dep`, `m`, `unch`, `inst` are
`dependency_permanent` membership, `tensors_mapping`,
`unchangeable_intermediate_tensors` and `instantiate`. -/
structure ReplayEnv (V : Type) where
  hasFunc : PNode → Bool
  isFbF : PNode → Bool
  fbIdx : PNode → List Nat
  isFbUnw : PNode → Bool
  invoke : PNode → List (ArgVal V) → Option (List V)
  dep : TId → Bool
  m : Nat → TId → Nat
  unch : List Nat
  inst : List Nat

/-- Resolve one registry slot the way `get_inputs` reads
`self.tensor_registry[self.tensors_mapping[(node.id, t_id)]]`: a missing
key is a raised `KeyError` (`none`); a `None` value resolves to `None`. -/
def readSlot {V : Type} (reg : Reg V) (k : Nat) : Option (ArgVal V) :=
  match reg k with
  | none => none
  | some none => some ArgVal.nullArg
  | some (some v) => some (ArgVal.tval v)

/-- `get_inputs(node)`: the fbgemm-forward path gathers the tensors at
`fbgemm_input_args_indices` (appending `None` when unweighted); the generic
path resolves each raw input item.  Result `none` models the `except`
branch: some lookup raised, the function printed `Inputs error` with the
node id and fell through, returning Python `None`. -/
def get_inputs {V : Type} (env : ReplayEnv V) (reg : Reg V) (n : PNode) :
    Option (List (ArgVal V)) :=
  if env.isFbF n then
    ((env.fbIdx n).mapM (fun idx =>
        match n.rawInputs[idx]? with
        | some (InItem.tensor t) => readSlot reg (env.m n.id t)
        | _ => none)).map
      (fun l => if env.isFbUnw n then l ++ [ArgVal.nullArg] else l)
  else
    n.rawInputs.mapM (fun it =>
      match it with
      | InItem.tensor t => readSlot reg (env.m n.id t)
      | InItem.tensorList ts => (ts.mapM (fun t => reg (env.m n.id t))).map ArgVal.tlist
      | InItem.noneLit => some ArgVal.nullArg
      | InItem.infLit b => some (ArgVal.infArg b)
      | InItem.lit s => some (ArgVal.litArg s))

/-- The fixed per-operator argument patches applied by `run_op` before
invocation: `aten::convolution_backward` forces the trailing output-mask
argument (on an empty argument list the `inputs[-1]` write raises,
uncaught); `aten::mul` reads `.is_cuda` on its first two arguments, which
raises (uncaught) unless both are tensor values — the device coercion
itself is invisible here because device placement is not modelled.
`none` models an uncaught exception. -/
def patch_args {V : Type} (n : PNode) (args : List (ArgVal V)) :
    Option (List (ArgVal V)) :=
  if n.name = "aten::convolution_backward" then
    match args with
    | [] => none
    | _ :: _ => some (args.dropLast ++ [ArgVal.litArg "[True, True, True]"])
  else if n.name = "aten::mul" then
    match args[0]?, args[1]? with
    | some (ArgVal.tval _), some (ArgVal.tval _) => some args
    | _, _ => none
  else some args

/-- A fatal outcome of `run_op`: `reportedExit` is the
`print(...); exit(1)` path of the invocation `try` block, `uncaught` is an
exception propagating out of `run_op` (a workaround line outside any
`try`).  Both carry the failing node id and terminate the process. -/
inductive RunErr where
  | reportedExit (nodeId : Nat)
  | uncaught (nodeId : Nat)
  deriving DecidableEq, Repr

/-- The node id an error is attributed to. -/
def errNode : RunErr → Nat
  | RunErr.reportedExit i => i
  | RunErr.uncaught i => i

/-- The outcome when `get_inputs` returned Python `None`: for
`aten::convolution_backward` and `aten::mul`, the workaround lines index
into `None` and raise uncaught; for every other node `func(*None)` raises
inside the `try` block, which prints the node context and calls `exit(1)`. -/
def resolutionErr (n : PNode) : RunErr :=
  if n.name = "aten::convolution_backward" ∨ n.name = "aten::mul" then
    RunErr.uncaught n.id
  else RunErr.reportedExit n.id

/-- One step of the output write-back loop at the end of `run_op`:
`pr` is one output triple paired positionally with one concrete output. -/
def writeStep {V : Type} (dep : TId → Bool) (m : Nat → TId → Nat)
    (unch inst : List Nat) (n : PNode) (r : Reg V) (pr : TRef × V) : Reg V :=
  if dep pr.1.tid = true ∧ m n.id pr.1.tid ∉ unch then
    if m n.id pr.1.tid ∉ inst then
      fun j => if j = m n.id pr.1.tid then some (some pr.2) else r j
    else r
  else r

/-- The output write-back loop at the end of `run_op`: each output paired
positionally with the node's recorded output triples overwrites the
registry entry of its slot only when the identifier is tracked and the slot
is neither unchangeable nor in the instantiate set. -/
def run_op_writes {V : Type} (dep : TId → Bool) (m : Nat → TId → Nat)
    (unch inst : List Nat) (n : PNode) (outputs : List V) (reg : Reg V) : Reg V :=
  (n.outs.zip outputs).foldl (writeStep dep m unch inst n) reg

/-- `run_op` after successful argument resolution and patching:
invoke the callable and, on success, run the write-back loop. -/
def run_op_invoke {V : Type} (env : ReplayEnv V) (reg : Reg V) (n : PNode)
    (args2 : List (ArgVal V)) : Except RunErr (Reg V) :=
  match env.invoke n args2 with
  | none => Except.error (RunErr.reportedExit n.id)
  | some outs => Except.ok (run_op_writes env.dep env.m env.unch env.inst n outs reg)

/-- `run_op` after successful argument resolution: apply the per-operator
argument patches, then invoke. -/
def run_op_patched {V : Type} (env : ReplayEnv V) (reg : Reg V) (n : PNode)
    (args : List (ArgVal V)) : Except RunErr (Reg V) :=
  match patch_args n args with
  | none => Except.error (RunErr.uncaught n.id)
  | some args2 => run_op_invoke env reg n args2

/-- `run_op(node)` for one node of one pass. -/
def run_op {V : Type} (env : ReplayEnv V) (reg : Reg V) (n : PNode) :
    Except RunErr (Reg V) :=
  if env.hasFunc n = false then Except.ok reg
  else
    match get_inputs env reg n with
    | none => Except.error (resolutionErr n)
    | some args => run_op_patched env reg n args

/-- One replay pass: `for node in self.sorted_nodes: self.run_op(node)`;
the first fatal outcome terminates the pass (and the process). -/
def replay_pass {V : Type} (env : ReplayEnv V) (reg : Reg V) (ns : List PNode) :
    Except RunErr (Reg V) :=
  ns.foldlM (fun r n => run_op env r n) reg

/-- `p` replay passes over the same node list (the warmup + measured
iterations of `benchTime`; `reset_registry` between passes is commented out
in the source, so the registry persists across passes). -/
def replay_run {V : Type} (env : ReplayEnv V) (ns : List PNode) :
    Nat → Reg V → Except RunErr (Reg V)
  | 0, reg => Except.ok reg
  | p + 1, reg =>
      match replay_pass env reg ns with
      | Except.error e => Except.error e
      | Except.ok r => replay_run env ns p r

/-- Concrete node for the replay-engine witnesses: it outputs to slots `3`
and `5` (under the identity mapping) and has no inputs. -/
def c3Node : PNode :=
  { id := 1, name := "aten::addmm"
    ins := []
    outs := [⟨"Tensor(float)", 3, [1]⟩, ⟨"Tensor(float)", 5, [1]⟩]
    rawInputs := [], inputShapes := [] }

/-- Concrete working registry for the replay-engine witnesses: every slot
bound to `None`. -/
def c3Reg : Reg Nat := fun _ => some none

/-- Concrete replay environment for the `run_op_unchangeable_guard`
witness: slot `3` is unchangeable and every invocation returns two outputs. -/
def c3Env : ReplayEnv Nat :=
  { hasFunc := fun _ => true
    isFbF := fun _ => false
    fbIdx := fun _ => []
    isFbUnw := fun _ => false
    invoke := fun _ _ => some [7, 8]
    dep := fun _ => true
    m := fun _ t => t
    unch := [3]
    inst := [] }

/-- Concrete replay environment for the `replay_exception_fatal` witness:
every invocation raises. -/
def c8Env : ReplayEnv Nat :=
  { hasFunc := fun _ => true
    isFbF := fun _ => false
    fbIdx := fun _ => []
    isFbUnw := fun _ => false
    invoke := fun _ _ => none
    dep := fun _ => true
    m := fun _ t => t
    unch := []
    inst := [] }

/-- Concrete node for the `replay_exception_fatal` witness. -/
def c8Node : PNode :=
  { id := 4, name := "aten::addmm", ins := [], outs := []
    rawInputs := [], inputShapes := [] }

/-! ## Subgraph extraction (`extract_subgraph`, lines 99–133)

`_dfs_traverse` walks the children of a node: a child whose name contains a
skip marker is skipped entirely; a qualified child is appended to
`sorted_nodes` and its subtree is NOT entered; a non-qualified child is
descended into.  `is_qualified` is an external classifier and stays a
parameter.  (The per-qualified-node side effects — top-tensor sets,
dependency counts, callable building — touch other state and are embedded
separately; `dfs_traverse` returns the recorded node list.) -/

/-- An execution-graph tree node: payload plus ordered children. -/
inductive GNode where
  | mk (payload : PNode) (children : List GNode)

/-- The payload of a tree node. -/
def GNode.payload : GNode → PNode
  | GNode.mk p _ => p

/-- The children of a tree node. -/
def GNode.children : GNode → List GNode
  | GNode.mk _ cs => cs

/-- Does the second character list start with the first? -/
def listIsPref : List Char → List Char → Bool
  | [], _ => true
  | _ :: _, [] => false
  | a :: as, b :: bs => a == b && listIsPref as bs

/-- Does the second character list contain the first as a contiguous
sublist? -/
def listHasSub (needle : List Char) : List Char → Bool
  | [] => needle.isEmpty
  | b :: tl => listIsPref needle (b :: tl) || listHasSub needle tl

/-- Python `pat in s` for strings. -/
def strContains (s pat : String) : Bool := listHasSub pat.data s.data

/-- The skip test of `_dfs_traverse` / `_bfs_traverse`:
`any(x in child.name for x in self.skip_node_names)` with
`skip_node_names = ["DataLoader", "aten::set_"]`. -/
def skipNode (n : PNode) : Bool :=
  strContains n.name "DataLoader" || strContains n.name "aten::set_"

mutual

/-- `_dfs_traverse(root)`: process the children of `root`. -/
def dfs_traverse (qual : PNode → Bool) : GNode → List PNode
  | GNode.mk _ cs => dfs_list qual cs

/-- The loop body of `_dfs_traverse` over a child list: skip marked
children, record qualified children without descending, descend into
non-qualified children. -/
def dfs_list (qual : PNode → Bool) : List GNode → List PNode
  | [] => []
  | GNode.mk p cs :: rest =>
      (if skipNode p then []
       else if qual p then [p]
       else dfs_list qual cs) ++ dfs_list qual rest

end

/-- `ReachNQ qual r c`: tree node `c` is reached by the traversal started
at `r` — it is a non-skipped child of `r`, or a non-skipped descendant
through a chain of non-skipped NON-qualified intermediate nodes (the
traversal never enters a qualified or skipped node's subtree). -/
inductive ReachNQ (qual : PNode → Bool) : GNode → GNode → Prop where
  | here {r c : GNode} : c ∈ r.children → skipNode c.payload = false →
      ReachNQ qual r c
  | step {r c d : GNode} : c ∈ r.children → skipNode c.payload = false →
      qual c.payload = false → ReachNQ qual c d → ReachNQ qual r d

/-- Concrete tree for the `extract_subgraph_dfs_characterization` witness:
the root has a non-qualified child `b` wrapping a qualified grandchild `a`
(which itself wraps a qualified node `d` that must NOT be recorded), and a
skip-listed child `s`. -/
def c4a : PNode :=
  { id := 3, name := "aten::mm", ins := [], outs := [], rawInputs := [], inputShapes := [] }

/-- Non-qualified wrapper payload for the C4 witness. -/
def c4b : PNode :=
  { id := 2, name := "autograd::profiler", ins := [], outs := [], rawInputs := [],
    inputShapes := [] }

/-- Hidden qualified payload below a qualified node for the C4 witness. -/
def c4d : PNode :=
  { id := 5, name := "aten::relu", ins := [], outs := [], rawInputs := [], inputShapes := [] }

/-- Skip-listed payload for the C4 witness. -/
def c4s : PNode :=
  { id := 7, name := "DataLoader_iter", ins := [], outs := [], rawInputs := [],
    inputShapes := [] }

/-- The C4 witness tree. -/
def c4Tree : GNode :=
  GNode.mk { id := 1, name := "root", ins := [], outs := [], rawInputs := [], inputShapes := [] }
    [GNode.mk c4b [GNode.mk c4a [GNode.mk c4d []]], GNode.mk c4s []]

/-- The qualification predicate of the C4 witness: names starting `aten::`.
(`is_qualified` itself is external; the traversal is proved for every
predicate.) -/
def c4qual (p : PNode) : Bool := strContains p.name "aten::"

/-! ## Dependency analyzer ancestor walk (`analyze_subgraph`, lines 136–157)

For a non-skipped, non-backward operator child that is not in
`sorted_nodes`, `_bfs_traverse` runs
`node = child.parent; while node not in self.sorted_nodes: node = node.parent`
with no guard.  The ancestor chain of a tree node is finite (the data model
is a tree with one root); stepping past the root reads a missing parent and
the pass dies instead of returning.  The chain is reified as the list
`[parent, grandparent, …, root]`; exhausting it models that failure
(`none`). -/

/-- The unguarded ancestor walk: return the first element of the ancestor
chain that is in `sorted` (the qualified list), or `none` when the chain is
exhausted — in the program the pass fails at that point rather than
returning. -/
def find_qualified_ancestor (sorted : List PNode) : List PNode → Option PNode
  | [] => none
  | a :: rest => if a ∈ sorted then some a else find_qualified_ancestor sorted rest

/-! ## Operator builder fbgemm stack (`build_func`, lines 245–253)

`build_func` pushes `func.backward` onto `self.fbgemm_backward_ops` for an
fbgemm forward node and pops the most recent entry (`pop(-1)`, asserting
nonemptiness) for an fbgemm backward node.  A backward entry is identified
by the id of the forward node that pushed it.  The classifiers
`is_fbgemm_forward` / `is_fbgemm_backward` are external parameters; the
`elif` order means a node classified forward is never treated as
backward. -/

/-- Process a node list through `build_func`, threading the
`fbgemm_backward_ops` stack (head = most recently pushed) and collecting,
for each backward node, the pair (backward node id, popped entry);
`none` as popped entry is the failed `assert self.fbgemm_backward_ops`. -/
def build_func_state (isFbF isFbB : PNode → Bool) :
    List Nat → List PNode → List Nat × List (Nat × Option Nat)
  | st, [] => (st, [])
  | st, n :: rest =>
      if isFbF n then build_func_state isFbF isFbB (n.id :: st) rest
      else if isFbB n then
        let res := build_func_state isFbF isFbB st.tail rest
        (res.1, (n.id, st.head?) :: res.2)
      else build_func_state isFbF isFbB st rest

/-- Trace-order-nested (balanced) forward/backward sequences: empty, a
non-fbgemm node before a nested sequence, or a forward/backward pair
wrapping a nested sequence followed by a nested sequence. -/
inductive Nested (isFbF isFbB : PNode → Bool) : List PNode → Prop where
  | nil : Nested isFbF isFbB []
  | other {n : PNode} {w : List PNode} : isFbF n = false → isFbB n = false →
      Nested isFbF isFbB w → Nested isFbF isFbB (n :: w)
  | wrap {f b : PNode} {w v : List PNode} : isFbF f = true → isFbB b = true →
      isFbF b = false → Nested isFbF isFbB w → Nested isFbF isFbB v →
      Nested isFbF isFbB (f :: w ++ b :: v)

/-- Forward payload for the `build_func_lifo_pairing` witness. -/
def c6f : PNode :=
  { id := 1, name := "fbgemm::split_embedding_codegen_lookup_sgd_function",
    ins := [], outs := [], rawInputs := [], inputShapes := [] }

/-- Inner forward payload for the `build_func_lifo_pairing` witness. -/
def c6f2 : PNode :=
  { id := 2, name := "fbgemm::split_embedding_codegen_lookup_sgd_function",
    ins := [], outs := [], rawInputs := [], inputShapes := [] }

/-- Inner backward payload for the `build_func_lifo_pairing` witness. -/
def c6b2 : PNode :=
  { id := 3, name := "CppNode<SplitLookupFunction_sgd_Op>",
    ins := [], outs := [], rawInputs := [], inputShapes := [] }

/-- Outer backward payload for the `build_func_lifo_pairing` witness. -/
def c6b : PNode :=
  { id := 4, name := "CppNode<SplitLookupFunction_sgd_Op>",
    ins := [], outs := [], rawInputs := [], inputShapes := [] }

/-- Forward classifier for the C6 witness. -/
def c6IsF (p : PNode) : Bool := strContains p.name "fbgemm::split_embedding"

/-- Backward classifier for the C6 witness. -/
def c6IsB (p : PNode) : Bool := strContains p.name "CppNode"

/-! ## Tensor allocator (`allocate_tensors`, lines 205–242)

For each qualified node and each enumerated input triple, a slot is
materialized when its identifier is tracked, the slot is not yet bound in
the permanent registry, and the node is always-eager
(`aten::embedding_bag` / `fbgemm::split_embedding_codegen_lookup_sgd_function`)
or the slot is in the instantiate set.  Buffer contents are `Buf` (ℚ per
index); the external `TORCH_DTYPES_RNG` table and fbgemm generator are
oracles.  A `KeyError` on the dtype table binds the slot to `None`
(`some none`); the marker-set updates of the successful branches are kept
with the write (they are skipped by the `except` handler exactly when the
write is a null binding).  The `input_shapes` / `inputs` subscripts of the
embedding-bag patch are totalized with defaults; a trace where they are
out of range crashes the program and is outside the theorems below. -/

/-- A replay buffer: rational content per flat index. -/
def Buf : Type := Nat → ℚ

/-- Allocator state: `tensor_registry_permanent`,
`unchangeable_intermediate_tensors`, `cpu_tensor`. -/
structure AllocState where
  registry : Reg Buf
  unch : List Nat
  cpu : List Nat

/-- Allocator environment: dependency gate, slot mapping, instantiate set,
external fbgemm classifier/generator and the `TORCH_DTYPES_RNG` table
(`none` = `KeyError`). -/
structure AllocEnv where
  dep : TId → Bool
  m : Nat → TId → Nat
  inst : List Nat
  isFbF : PNode → Bool
  genFb : PNode → Nat → Buf
  rngTable : String → Option (Shape → Buf)

/-- `data_type.lstrip('Tensor(').rstrip(')')`: strip leading characters
drawn from the set `{T,e,n,s,o,r,(}` and trailing `)` characters. -/
def stripDType (s : String) : String :=
  String.mk (((s.data.dropWhile (fun c => "Tensor(".data.contains c)).reverse.dropWhile
    (fun c => c == ')')).reverse)

/-- The buffer value bound by a firing allocation: the fbgemm argument at
this position, a generated buffer of the recorded shape, or `none` when the
dtype has no generator (`KeyError` → bind Python `None`). -/
def fireValue (env : AllocEnv) (n : PNode) (idx : Nat) (r : TRef) : Option Buf :=
  if env.isFbF n then some (env.genFb n idx)
  else
    match env.rngTable (stripDType r.dtype) with
    | some rng => some (rng r.shape)
    | none => none

/-- The unchangeable-set update of a firing allocation (applied only on the
non-`KeyError` paths, with the write). -/
def fireUnch (env : AllocEnv) (n : PNode) (r : TRef) (k : Nat) (u : List Nat) : List Nat :=
  if env.isFbF n then
    if n.name = "fbgemm::split_embedding_codegen_lookup_sgd_function" then k :: u else u
  else
    match env.rngTable (stripDType r.dtype) with
    | some _ => if n.name = "aten::embedding_bag" then k :: u else u
    | none => u

/-- The cpu-set update of a firing allocation (first input of
`aten::pin_memory`, non-`KeyError`, non-fbgemm path only). -/
def fireCpu (env : AllocEnv) (n : PNode) (idx : Nat) (r : TRef) (k : Nat)
    (c : List Nat) : List Nat :=
  if env.isFbF n then c
  else
    match env.rngTable (stripDType r.dtype) with
    | some _ => if n.name = "aten::pin_memory" ∧ idx = 0 then k :: c else c
    | none => c

/-- A firing allocation: bind the slot and update the marker sets. -/
def alloc_input_fire (env : AllocEnv) (n : PNode) (st : AllocState) (idx : Nat)
    (r : TRef) (k : Nat) : AllocState :=
  { registry := fun j => if j = k then some (fireValue env n idx r) else st.registry j
    unch := fireUnch env n r k st.unch
    cpu := fireCpu env n idx r k st.cpu }

/-- One enumerated input of the allocation loop: fire exactly under the
source guard (tracked identifier, unbound slot, always-eager node name or
instantiate membership). -/
def alloc_input (env : AllocEnv) (n : PNode) (st : AllocState) (p : Nat × TRef) :
    AllocState :=
  if env.dep p.2.tid = true ∧ (st.registry (env.m n.id p.2.tid)).isNone = true ∧
      (n.name = "aten::embedding_bag" ∨
        n.name = "fbgemm::split_embedding_codegen_lookup_sgd_function" ∨
        env.m n.id p.2.tid ∈ env.inst) then
    alloc_input_fire env n st p.1 p.2 (env.m n.id p.2.tid)
  else st

/-- `node.input_shapes[1][0]` — the indices-tensor length of an
embedding-bag node (totalized with default `0`). -/
def embBagL (n : PNode) : Nat := ((n.inputShapes[1]?).getD []).headD 0

/-- `node.input_shapes[2][0]` — the offsets-tensor length of an
embedding-bag node (totalized with default `0`). -/
def embBagO (n : PNode) : Nat := ((n.inputShapes[2]?).getD []).headD 0

/-- The synthetic uniform offsets layout: entry `i` becomes
`i * (L / O)` (Python true division) for `i < O`; other entries keep the
previous buffer content. -/
def embBagPatch (n : PNode) (b : Buf) : Buf :=
  fun i =>
    if i < embBagO n then (i : ℚ) * ((embBagL n : ℚ) / (embBagO n : ℚ))
    else b i

/-- A fatal allocation outcome: the embedding-bag offsets workaround of
lines 233–242 raised, uncaught — `TypeError` when the offsets slot is
bound to `None` (which is exactly what a dtype-table miss left there),
`KeyError` when the slot is unbound or `node.inputs[2]` is not a mapped
tensor, `IndexError` on a missing `input_shapes` subscript, or
`ZeroDivisionError` on a zero offsets length.  The error carries the
failing node id; the process dies.  Nothing else in the allocation loop
raises: the dtype-table `KeyError` of the binding loop is caught. -/
inductive AllocErr where
  | patchCrash (nodeId : Nat)
  deriving DecidableEq, Repr

/-- The in-place offsets write of lines 240–241 (reached only with a
nonzero offsets length): the slot must hold a tensor — a slot bound to
`None` raises `TypeError` on item assignment and an unbound slot raises
`KeyError`, both fatal. -/
def patch_apply (env : AllocEnv) (n : PNode) (st : AllocState) (t : TId) :
    Except AllocErr AllocState :=
  match st.registry (env.m n.id t) with
  | some (some b) =>
      Except.ok
        { st with registry := fun j =>
            if j = env.m n.id t then some (some (embBagPatch n b))
            else st.registry j }
  | _ => Except.error (AllocErr.patchCrash n.id)

/-- The embedding-bag offsets workaround (lines 233–242), run after the
binding loop of every `aten::embedding_bag` node: read
`input_shapes[1][0]` and `input_shapes[2][0]` (a missing subscript raises
`IndexError`), compute `nnz` (a zero offsets length raises
`ZeroDivisionError` — with it, the loop that would touch `inputs[2]` is
never entered), then overwrite the buffer of the slot of `node.inputs[2]`
in place (a missing or non-tensor entry raises in the mapping lookup).
Every raising path is fatal.  (The slot mapping `m` is total here, so a
mapping `KeyError` for a tensor entry that pass 1 never saw is not
representable; in the integrated pipeline every tracked input of a sorted
node is mapped.) -/
def patch_embedding_bag (env : AllocEnv) (n : PNode) (st : AllocState) :
    Except AllocErr AllocState :=
  if n.name = "aten::embedding_bag" then
    match (n.inputShapes[1]?).bind List.head?, (n.inputShapes[2]?).bind List.head?,
        n.rawInputs[2]? with
    | some _, some o, some (InItem.tensor t) =>
        if o = 0 then Except.error (AllocErr.patchCrash n.id)
        else patch_apply env n st t
    | _, _, _ => Except.error (AllocErr.patchCrash n.id)
  else Except.ok st

/-- The allocation loop body for one qualified node: enumerate the input
triples, then apply the embedding-bag offsets patch (which may be fatal). -/
def allocate_node (env : AllocEnv) (st : AllocState) (n : PNode) :
    Except AllocErr AllocState :=
  patch_embedding_bag env n (n.ins.enum.foldl (alloc_input env n) st)

/-- `allocate_tensors`: the allocation loop over the sorted node list;
the first patch crash terminates the run. -/
def allocate_tensors (env : AllocEnv) (st : AllocState) (ns : List PNode) :
    Except AllocErr AllocState :=
  ns.foldlM (fun s n => allocate_node env s n) st

/-- Concrete allocator environment for the
`allocate_missing_dtype_binds_null` witness: the dtype table is empty,
so every generic materialization misses. -/
def c7Env : AllocEnv :=
  { dep := fun _ => true
    m := fun _ t => t
    inst := [5]
    isFbF := fun _ => false
    genFb := fun _ _ => fun _ => 0
    rngTable := fun _ => none }

/-- Concrete node for the C7 witness: one input on slot `5` (identity
mapping), which is in the instantiate set. -/
def c7Node : PNode :=
  { id := 1, name := "aten::addmm"
    ins := [⟨"Tensor(float)", 5, [4]⟩], outs := []
    rawInputs := [InItem.tensor 5], inputShapes := [] }

/-- Empty allocator state. -/
def c7St : AllocState := { registry := fun _ => none, unch := [], cpu := [] }

/-- Offsets-aliasing counterexample input, node A: an `aten::embedding_bag`
with weight id 0 shape `[10]`, indices id 1 shape `[4]`, offsets id 2
shape `[2]`. -/
def cexA : PNode :=
  { id := 1, name := "aten::embedding_bag"
    ins := [⟨"Tensor(float)", 0, [10]⟩, ⟨"Tensor(long)", 1, [4]⟩, ⟨"Tensor(long)", 2, [2]⟩]
    outs := []
    rawInputs := [InItem.tensor 0, InItem.tensor 1, InItem.tensor 2]
    inputShapes := [[10], [4], [2]] }

/-- Offsets-aliasing counterexample input, node B: a later
`aten::embedding_bag` sharing the offsets identifier 2 with the same shape
`[2]` (hence the same replay slot) but with indices length 8. -/
def cexB : PNode :=
  { id := 2, name := "aten::embedding_bag"
    ins := [⟨"Tensor(float)", 0, [10]⟩, ⟨"Tensor(long)", 3, [8]⟩, ⟨"Tensor(long)", 2, [2]⟩]
    outs := []
    rawInputs := [InItem.tensor 0, InItem.tensor 3, InItem.tensor 2]
    inputShapes := [[10], [8], [2]] }

/-- The counterexample node list (already in ascending node-id order). -/
def cexNodes : List PNode := [cexA, cexB]

/-- The dependency count built by subgraph extraction: one increment per
input occurrence of a qualified node. -/
def depCount (ns : List PNode) (t : TId) : Nat :=
  ns.foldl (fun c n => c + n.ins.countP (fun r => decide (r.tid = t))) 0

/-- Tracked identifiers of the counterexample. -/
def cexDep : TId → Bool := fun t => decide (0 < depCount cexNodes t)

/-- Resolver state of the counterexample after pass 1. -/
def cexR : RState := analyze_pass1 cexDep cexNodes

/-- Total slot mapping of the counterexample. -/
def cexM : Nat → TId → Nat := fun nid t => (cexR.mapping nid t).getD 0

/-- Instantiate set of the counterexample. -/
def cexInst : List Nat := (classify cexDep cexM cexNodes).1

/-- Allocator environment of the counterexample: zero-filled generators
for every dtype, no fbgemm nodes. -/
def cexEnv : AllocEnv :=
  { dep := cexDep, m := cexM, inst := cexInst
    isFbF := fun _ => false
    genFb := fun _ _ => fun _ => 0
    rngTable := fun _ => some (fun _ => fun _ => 0) }

/-- Empty allocator state of the counterexample. -/
def cexSt : AllocState := { registry := fun _ => none, unch := [], cpu := [] }

/-- Allocator state of the counterexample after `allocate_tensors`
(the run completes; the `Except.ok` payload is extracted). -/
def cexFinal : AllocState :=
  match allocate_tensors cexEnv cexSt cexNodes with
  | Except.ok s => s
  | Except.error _ => cexSt

/-- Allocator state after processing node `cexA` alone (the step
completes; the `Except.ok` payload is extracted). -/
def c9Mid : AllocState :=
  match allocate_node cexEnv cexSt cexA with
  | Except.ok s => s
  | Except.error _ => cexSt

/-- Allocator environment for the C7 counterexample: the counterexample
pipeline's gate, mapping and instantiate set, but an empty dtype table —
every generic materialization misses and binds `None`. -/
def c7cEnv : AllocEnv :=
  { dep := cexDep, m := cexM, inst := cexInst
    isFbF := fun _ => false
    genFb := fun _ _ => fun _ => 0
    rngTable := fun _ => none }

/-- Allocator state after the C7 witness run over `[c7Node, c8Node]`
(no embedding-bag node, so the run completes). -/
def c7Final : AllocState :=
  match allocate_tensors c7Env c7St [c7Node, c8Node] with
  | Except.ok s => s
  | Except.error _ => c7St

/-- The content of a bound buffer at a flat index (0 when the slot is not
bound to a tensor). -/
def bufAt (reg : Reg Buf) (k i : Nat) : ℚ :=
  match reg k with
  | some (some b) => b i
  | _ => 0

/-- The resolver state has never touched identifier `t`. -/
def untracked_state (t : TId) (s : RState) : Prop :=
  (∀ n, s.mapping n t = none) ∧ s.tensorShapes t = []

theorem RInv_initR : RInv initR := by
  constructor <;> intros <;> simp_all [initR]

/-- Unseen-identifier case equation for `add_unique_tensor`. -/
theorem add_eq_unseen (s : RState) (nid : Nat) (t : TId) (sh : Shape)
    (h : s.originals t = false) :
    add_unique_tensor s nid t sh =
      { originals := fun u => if u = t then true else s.originals u
        num := s.num + 1
        mapping := fun n u => if n = nid ∧ u = t then some (s.num + 1) else s.mapping n u
        replayShapes := fun j => if j = s.num + 1 then some sh else s.replayShapes j
        tensorShapes := fun u =>
          if u = t then (s.num + 1, sh) :: s.tensorShapes u else s.tensorShapes u } := by
  rw [add_unique_tensor, if_pos h]

/-- Seen-identifier, matching-shape case equation for `add_unique_tensor`. -/
theorem add_eq_found (s : RState) (nid : Nat) (t : TId) (sh : Shape) (pr : Nat × Shape)
    (h : ¬ s.originals t = false)
    (hf : (s.tensorShapes t).find? (fun p => decide (p.2 = sh)) = some pr) :
    add_unique_tensor s nid t sh =
      { s with mapping := fun n u => if n = nid ∧ u = t then some pr.1 else s.mapping n u } := by
  rw [add_unique_tensor, if_neg h, hf]

/-- Seen-identifier, new-shape case equation for `add_unique_tensor`. -/
theorem add_eq_notfound (s : RState) (nid : Nat) (t : TId) (sh : Shape)
    (h : ¬ s.originals t = false)
    (hf : (s.tensorShapes t).find? (fun p => decide (p.2 = sh)) = none) :
    add_unique_tensor s nid t sh =
      { originals := s.originals
        num := s.num + 1
        mapping := fun n u => if n = nid ∧ u = t then some (s.num + 1) else s.mapping n u
        replayShapes := fun j => if j = s.num + 1 then some sh else s.replayShapes j
        tensorShapes := fun u =>
          if u = t then (s.num + 1, sh) :: s.tensorShapes u else s.tensorShapes u } := by
  rw [add_unique_tensor, if_neg h, hf]

theorem resolve_eq_unseen (s : RState) (t : TId) (sh : Shape)
    (h : s.originals t = false) : resolveSlot s t sh = s.num + 1 := by
  rw [resolveSlot, if_pos h]

theorem resolve_eq_found (s : RState) (t : TId) (sh : Shape) (pr : Nat × Shape)
    (h : ¬ s.originals t = false)
    (hf : (s.tensorShapes t).find? (fun p => decide (p.2 = sh)) = some pr) :
    resolveSlot s t sh = pr.1 := by
  rw [resolveSlot, if_neg h, hf]

theorem resolve_eq_notfound (s : RState) (t : TId) (sh : Shape)
    (h : ¬ s.originals t = false)
    (hf : (s.tensorShapes t).find? (fun p => decide (p.2 = sh)) = none) :
    resolveSlot s t sh = s.num + 1 := by
  rw [resolveSlot, if_neg h, hf]

theorem add_unseen_num (s : RState) (nid : Nat) (t : TId) (sh : Shape)
    (h : s.originals t = false) : (add_unique_tensor s nid t sh).num = s.num + 1 := by
  rw [add_eq_unseen s nid t sh h]

theorem add_unseen_mapping (s : RState) (nid : Nat) (t : TId) (sh : Shape)
    (h : s.originals t = false) (n : Nat) (u : TId) :
    (add_unique_tensor s nid t sh).mapping n u =
      if n = nid ∧ u = t then some (s.num + 1) else s.mapping n u := by
  rw [add_eq_unseen s nid t sh h]

theorem add_unseen_shapes (s : RState) (nid : Nat) (t : TId) (sh : Shape)
    (h : s.originals t = false) (j : Nat) :
    (add_unique_tensor s nid t sh).replayShapes j =
      if j = s.num + 1 then some sh else s.replayShapes j := by
  rw [add_eq_unseen s nid t sh h]

theorem add_unseen_ts (s : RState) (nid : Nat) (t : TId) (sh : Shape)
    (h : s.originals t = false) (u : TId) :
    (add_unique_tensor s nid t sh).tensorShapes u =
      if u = t then (s.num + 1, sh) :: s.tensorShapes u else s.tensorShapes u := by
  rw [add_eq_unseen s nid t sh h]

theorem add_unseen_originals (s : RState) (nid : Nat) (t : TId) (sh : Shape)
    (h : s.originals t = false) (u : TId) :
    (add_unique_tensor s nid t sh).originals u =
      if u = t then true else s.originals u := by
  rw [add_eq_unseen s nid t sh h]

theorem add_nf_num (s : RState) (nid : Nat) (t : TId) (sh : Shape)
    (h : ¬ s.originals t = false)
    (hf : (s.tensorShapes t).find? (fun p => decide (p.2 = sh)) = none) :
    (add_unique_tensor s nid t sh).num = s.num + 1 := by
  rw [add_eq_notfound s nid t sh h hf]

theorem add_nf_mapping (s : RState) (nid : Nat) (t : TId) (sh : Shape)
    (h : ¬ s.originals t = false)
    (hf : (s.tensorShapes t).find? (fun p => decide (p.2 = sh)) = none) (n : Nat) (u : TId) :
    (add_unique_tensor s nid t sh).mapping n u =
      if n = nid ∧ u = t then some (s.num + 1) else s.mapping n u := by
  rw [add_eq_notfound s nid t sh h hf]

theorem add_nf_shapes (s : RState) (nid : Nat) (t : TId) (sh : Shape)
    (h : ¬ s.originals t = false)
    (hf : (s.tensorShapes t).find? (fun p => decide (p.2 = sh)) = none) (j : Nat) :
    (add_unique_tensor s nid t sh).replayShapes j =
      if j = s.num + 1 then some sh else s.replayShapes j := by
  rw [add_eq_notfound s nid t sh h hf]

theorem add_nf_ts (s : RState) (nid : Nat) (t : TId) (sh : Shape)
    (h : ¬ s.originals t = false)
    (hf : (s.tensorShapes t).find? (fun p => decide (p.2 = sh)) = none) (u : TId) :
    (add_unique_tensor s nid t sh).tensorShapes u =
      if u = t then (s.num + 1, sh) :: s.tensorShapes u else s.tensorShapes u := by
  rw [add_eq_notfound s nid t sh h hf]

theorem add_nf_originals (s : RState) (nid : Nat) (t : TId) (sh : Shape)
    (h : ¬ s.originals t = false)
    (hf : (s.tensorShapes t).find? (fun p => decide (p.2 = sh)) = none) (u : TId) :
    (add_unique_tensor s nid t sh).originals u = s.originals u := by
  rw [add_eq_notfound s nid t sh h hf]

theorem add_found_num (s : RState) (nid : Nat) (t : TId) (sh : Shape) (pr : Nat × Shape)
    (h : ¬ s.originals t = false)
    (hf : (s.tensorShapes t).find? (fun p => decide (p.2 = sh)) = some pr) :
    (add_unique_tensor s nid t sh).num = s.num := by
  rw [add_eq_found s nid t sh pr h hf]

theorem add_found_mapping (s : RState) (nid : Nat) (t : TId) (sh : Shape) (pr : Nat × Shape)
    (h : ¬ s.originals t = false)
    (hf : (s.tensorShapes t).find? (fun p => decide (p.2 = sh)) = some pr) (n : Nat) (u : TId) :
    (add_unique_tensor s nid t sh).mapping n u =
      if n = nid ∧ u = t then some pr.1 else s.mapping n u := by
  rw [add_eq_found s nid t sh pr h hf]

theorem add_found_shapes (s : RState) (nid : Nat) (t : TId) (sh : Shape) (pr : Nat × Shape)
    (h : ¬ s.originals t = false)
    (hf : (s.tensorShapes t).find? (fun p => decide (p.2 = sh)) = some pr) (j : Nat) :
    (add_unique_tensor s nid t sh).replayShapes j = s.replayShapes j := by
  rw [add_eq_found s nid t sh pr h hf]

theorem add_found_ts (s : RState) (nid : Nat) (t : TId) (sh : Shape) (pr : Nat × Shape)
    (h : ¬ s.originals t = false)
    (hf : (s.tensorShapes t).find? (fun p => decide (p.2 = sh)) = some pr) (u : TId) :
    (add_unique_tensor s nid t sh).tensorShapes u = s.tensorShapes u := by
  rw [add_eq_found s nid t sh pr h hf]

theorem add_found_originals (s : RState) (nid : Nat) (t : TId) (sh : Shape) (pr : Nat × Shape)
    (h : ¬ s.originals t = false)
    (hf : (s.tensorShapes t).find? (fun p => decide (p.2 = sh)) = some pr) (u : TId) :
    (add_unique_tensor s nid t sh).originals u = s.originals u := by
  rw [add_eq_found s nid t sh pr h hf]

theorem add_unique_tensor_mapping_self (s : RState) (nid : Nat) (t : TId) (sh : Shape) :
    (add_unique_tensor s nid t sh).mapping nid t = some (resolveSlot s t sh) := by
  by_cases h : s.originals t = false
  · rw [add_eq_unseen s nid t sh h, resolve_eq_unseen s t sh h]; simp
  · rcases hf : (s.tensorShapes t).find? (fun p => decide (p.2 = sh)) with _ | pr
    · rw [add_eq_notfound s nid t sh h hf, resolve_eq_notfound s t sh h hf]; simp
    · rw [add_eq_found s nid t sh pr h hf, resolve_eq_found s t sh pr h hf]; simp

theorem add_unique_tensor_records (s : RState) (nid : Nat) (t : TId) (sh : Shape) :
    (resolveSlot s t sh, sh) ∈ (add_unique_tensor s nid t sh).tensorShapes t := by
  by_cases h : s.originals t = false
  · rw [add_eq_unseen s nid t sh h, resolve_eq_unseen s t sh h]; simp
  · rcases hf : (s.tensorShapes t).find? (fun p => decide (p.2 = sh)) with _ | pr
    · rw [add_eq_notfound s nid t sh h hf, resolve_eq_notfound s t sh h hf]; simp
    · rw [add_eq_found s nid t sh pr h hf, resolve_eq_found s t sh pr h hf]
      have hmem := List.mem_of_find?_eq_some hf
      have hsh : pr.2 = sh := by simpa using List.find?_some hf
      have hpr : (pr.1, sh) = pr := by rw [← hsh]
      simpa [hpr] using hmem

theorem add_unique_tensor_mono (s : RState) (nid : Nat) (t u : TId) (sh sh' : Shape)
    (k : Nat) (h : (k, sh') ∈ s.tensorShapes u) :
    (k, sh') ∈ (add_unique_tensor s nid t sh).tensorShapes u := by
  by_cases ho : s.originals t = false
  · rw [add_unseen_ts s nid t sh ho u]
    by_cases hu : u = t
    · rw [if_pos hu]; exact List.mem_cons_of_mem _ h
    · rw [if_neg hu]; exact h
  · rcases hf : (s.tensorShapes t).find? (fun p => decide (p.2 = sh)) with _ | pr
    · rw [add_nf_ts s nid t sh ho hf u]
      by_cases hu : u = t
      · rw [if_pos hu]; exact List.mem_cons_of_mem _ h
      · rw [if_neg hu]; exact h
    · rw [add_found_ts s nid t sh pr ho hf u]; exact h

theorem add_unique_tensor_num_le (s : RState) (nid : Nat) (t : TId) (sh : Shape) :
    s.num ≤ (add_unique_tensor s nid t sh).num := by
  by_cases ho : s.originals t = false
  · rw [add_eq_unseen s nid t sh ho]; simp
  · rcases hf : (s.tensorShapes t).find? (fun p => decide (p.2 = sh)) with _ | pr
    · rw [add_eq_notfound s nid t sh ho hf]; simp
    · rw [add_eq_found s nid t sh pr ho hf]

theorem resolveSlot_le (s : RState) (t : TId) (sh : Shape) (hs : RInv s) (nid : Nat) :
    resolveSlot s t sh ≤ (add_unique_tensor s nid t sh).num := by
  by_cases ho : s.originals t = false
  · rw [add_eq_unseen s nid t sh ho, resolve_eq_unseen s t sh ho]
  · rcases hf : (s.tensorShapes t).find? (fun p => decide (p.2 = sh)) with _ | pr
    · rw [add_eq_notfound s nid t sh ho hf, resolve_eq_notfound s t sh ho hf]
    · rw [add_eq_found s nid t sh pr ho hf, resolve_eq_found s t sh pr ho hf]
      exact hs.bounded t pr.1 pr.2 (List.mem_of_find?_eq_some hf)

theorem RInv_resolve_of_mem {s : RState} (hs : RInv s) {t : TId} {k : Nat} {sh : Shape}
    (h : (k, sh) ∈ s.tensorShapes t) : resolveSlot s t sh = k := by
  have ho : ¬ s.originals t = false := by
    intro hfalse
    rw [hs.unseen t hfalse] at h
    simp at h
  rcases hf : (s.tensorShapes t).find? (fun p => decide (p.2 = sh)) with _ | pr
  · have hcontra := List.find?_eq_none.mp hf (k, sh) h
    simp at hcontra
  · rw [resolve_eq_found s t sh pr ho hf]
    have hmem := List.mem_of_find?_eq_some hf
    have hsh : pr.2 = sh := by simpa using List.find?_some hf
    have hpr : (pr.1, sh) = pr := by rw [← hsh]
    exact hs.uniq t pr.1 k sh (hpr ▸ hmem) h

theorem RInv_add (s : RState) (nid : Nat) (t : TId) (sh : Shape) (hs : RInv s) :
    RInv (add_unique_tensor s nid t sh) := by
  by_cases ho : s.originals t = false
  case pos =>
    have hnil : s.tensorShapes t = [] := hs.unseen t ho
    refine ⟨?_, ?_, ?_, ?_, ?_⟩
    · intro u k sh' hmem
      rw [add_unseen_ts s nid t sh ho u] at hmem
      rw [add_unseen_shapes s nid t sh ho k]
      by_cases hu : u = t
      · rw [if_pos hu, hu, hnil, List.mem_singleton] at hmem
        obtain ⟨hk, hsh⟩ := Prod.mk.injEq .. ▸ hmem
        rw [if_pos hk, hsh]
      · rw [if_neg hu] at hmem
        have hb := hs.bounded u k sh' hmem
        have hk : ¬ k = s.num + 1 := by omega
        rw [if_neg hk]
        exact hs.shapeOf u k sh' hmem
    · intro u k k' sh' h1 h2
      rw [add_unseen_ts s nid t sh ho u] at h1 h2
      by_cases hu : u = t
      · rw [if_pos hu, hu, hnil, List.mem_singleton] at h1 h2
        obtain ⟨hk, -⟩ := Prod.mk.injEq .. ▸ h1
        obtain ⟨hk', -⟩ := Prod.mk.injEq .. ▸ h2
        rw [hk, hk']
      · rw [if_neg hu] at h1 h2
        exact hs.uniq u k k' sh' h1 h2
    · intro u k sh' hmem
      rw [add_unseen_ts s nid t sh ho u] at hmem
      rw [add_unseen_num s nid t sh ho]
      by_cases hu : u = t
      · rw [if_pos hu, hu, hnil, List.mem_singleton] at hmem
        obtain ⟨hk, -⟩ := Prod.mk.injEq .. ▸ hmem
        omega
      · rw [if_neg hu] at hmem
        have := hs.bounded u k sh' hmem
        omega
    · intro k hk
      rw [add_unseen_num s nid t sh ho] at hk
      rw [add_unseen_shapes s nid t sh ho k]
      have h1 : ¬ k = s.num + 1 := by omega
      rw [if_neg h1]
      exact hs.fresh k (by omega)
    · intro u hu
      rw [add_unseen_originals s nid t sh ho u] at hu
      rw [add_unseen_ts s nid t sh ho u]
      by_cases het : u = t
      · rw [if_pos het] at hu; exact absurd hu (by simp)
      · rw [if_neg het] at hu
        rw [if_neg het]
        exact hs.unseen u hu
  case neg =>
    rcases hf : (s.tensorShapes t).find? (fun p => decide (p.2 = sh)) with _ | pr
    · -- seen identifier, unseen shape: mint a fresh slot
      have hnone : ∀ p ∈ s.tensorShapes t, p.2 ≠ sh := by
        intro p hp
        simpa using List.find?_eq_none.mp hf p hp
      refine ⟨?_, ?_, ?_, ?_, ?_⟩
      · intro u k sh' hmem
        rw [add_nf_ts s nid t sh ho hf u] at hmem
        rw [add_nf_shapes s nid t sh ho hf k]
        by_cases hu : u = t
        · rw [if_pos hu, hu, List.mem_cons] at hmem
          rcases hmem with hmem | hmem
          · obtain ⟨hk, hsh⟩ := Prod.mk.injEq .. ▸ hmem
            rw [if_pos hk, hsh]
          · have hb := hs.bounded t k sh' hmem
            have hk : ¬ k = s.num + 1 := by omega
            rw [if_neg hk]
            exact hs.shapeOf t k sh' hmem
        · rw [if_neg hu] at hmem
          have hb := hs.bounded u k sh' hmem
          have hk : ¬ k = s.num + 1 := by omega
          rw [if_neg hk]
          exact hs.shapeOf u k sh' hmem
      · intro u k k' sh' h1 h2
        rw [add_nf_ts s nid t sh ho hf u] at h1 h2
        by_cases hu : u = t
        · rw [if_pos hu, hu, List.mem_cons] at h1 h2
          rcases h1 with h1 | h1 <;> rcases h2 with h2 | h2
          · obtain ⟨hk, -⟩ := Prod.mk.injEq .. ▸ h1
            obtain ⟨hk', -⟩ := Prod.mk.injEq .. ▸ h2
            rw [hk, hk']
          · obtain ⟨-, hsh⟩ := Prod.mk.injEq .. ▸ h1
            have hne : sh' ≠ sh := by simpa using hnone _ h2
            exact absurd hsh hne
          · obtain ⟨-, hsh⟩ := Prod.mk.injEq .. ▸ h2
            have hne : sh' ≠ sh := by simpa using hnone _ h1
            exact absurd hsh hne
          · exact hs.uniq t k k' sh' h1 h2
        · rw [if_neg hu] at h1 h2
          exact hs.uniq u k k' sh' h1 h2
      · intro u k sh' hmem
        rw [add_nf_ts s nid t sh ho hf u] at hmem
        rw [add_nf_num s nid t sh ho hf]
        by_cases hu : u = t
        · rw [if_pos hu, hu, List.mem_cons] at hmem
          rcases hmem with hmem | hmem
          · obtain ⟨hk, -⟩ := Prod.mk.injEq .. ▸ hmem
            omega
          · have := hs.bounded t k sh' hmem
            omega
        · rw [if_neg hu] at hmem
          have := hs.bounded u k sh' hmem
          omega
      · intro k hk
        rw [add_nf_num s nid t sh ho hf] at hk
        rw [add_nf_shapes s nid t sh ho hf k]
        have h1 : ¬ k = s.num + 1 := by omega
        rw [if_neg h1]
        exact hs.fresh k (by omega)
      · intro u hu
        rw [add_nf_originals s nid t sh ho hf u] at hu
        rw [add_nf_ts s nid t sh ho hf u]
        have hut : ¬ u = t := by
          intro hc
          rw [hc] at hu
          exact ho hu
        rw [if_neg hut]
        exact hs.unseen u hu
    · -- seen identifier and shape: only the mapping changes
      refine ⟨?_, ?_, ?_, ?_, ?_⟩
      · intro u k sh' hmem
        rw [add_found_ts s nid t sh pr ho hf u] at hmem
        rw [add_found_shapes s nid t sh pr ho hf k]
        exact hs.shapeOf u k sh' hmem
      · intro u k k' sh' h1 h2
        rw [add_found_ts s nid t sh pr ho hf u] at h1 h2
        exact hs.uniq u k k' sh' h1 h2
      · intro u k sh' hmem
        rw [add_found_ts s nid t sh pr ho hf u] at hmem
        rw [add_found_num s nid t sh pr ho hf]
        exact hs.bounded u k sh' hmem
      · intro k hk
        rw [add_found_num s nid t sh pr ho hf] at hk
        rw [add_found_shapes s nid t sh pr ho hf k]
        exact hs.fresh k hk
      · intro u hu
        rw [add_found_originals s nid t sh pr ho hf u] at hu
        rw [add_found_ts s nid t sh pr ho hf u]
        exact hs.unseen u hu

theorem RInv_foldl {α : Type} (f : RState → α → RState)
    (hf : ∀ s a, RInv s → RInv (f s a)) :
    ∀ (l : List α) (s : RState), RInv s → RInv (l.foldl f s) := by
  intro l
  induction l with
  | nil => intro s hs; simpa using hs
  | cons a l ih =>
      intro s hs
      simpa using ih (f s a) (hf s a hs)

theorem RInv_analyze_pass1_node (dep : TId → Bool) (s : RState) (n : PNode) (hs : RInv s) :
    RInv (analyze_pass1_node dep s n) := by
  unfold analyze_pass1_node
  apply RInv_foldl
  · intro a r ha
    by_cases hd : dep r.tid <;> simp [hd, RInv_add, ha]
  · apply RInv_foldl
    · intro a r ha
      by_cases hd : dep r.tid <;> simp [hd, RInv_add, ha]
    · exact hs

theorem RInv_analyze_pass1 (dep : TId → Bool) (ns : List PNode) :
    RInv (analyze_pass1 dep ns) := by
  unfold analyze_pass1
  exact RInv_foldl _ (fun s n hs => RInv_analyze_pass1_node dep s n hs) ns initR RInv_initR

/-- C1.  For every tracked tensor identifier, the identity resolver maps each
distinct `(identifier, shape)` pair to exactly one replay slot, reproducibly.
Let `s` be the resolver state after the assignment loop of `analyze_tensors`
over any node list (`analyze_pass1` feeds `add_unique_tensor` exactly the
tracked occurrences).  Then: (1) per identifier, a shape has at most one
recorded slot; (2) a slot records at most one shape, so occurrences of the
same identifier with different shapes get distinct slots; (3) a further
occurrence of `(t, sh)` resolves to the slot just assigned to `(t, sh)` —
the same slot again, at any node id; (4) an occurrence of `t` with a shape
`sh'` that has no recorded entry is assigned the freshly minted slot
`num + 1`, distinct from the slot of `(t, sh)`. -/
theorem analyze_tensors_identity_resolution (dep : TId → Bool) (ns : List PNode)
    (n1 n2 : Nat) (t : TId) (sh sh' : Shape) (hne : sh' ≠ sh) :
    (∀ u k k' s, (k, s) ∈ (analyze_pass1 dep ns).tensorShapes u →
        (k', s) ∈ (analyze_pass1 dep ns).tensorShapes u → k = k') ∧
    (∀ u k s s', (k, s) ∈ (analyze_pass1 dep ns).tensorShapes u →
        (k, s') ∈ (analyze_pass1 dep ns).tensorShapes u → s = s') ∧
    ((add_unique_tensor (analyze_pass1 dep ns) n1 t sh).mapping n1 t
        = some (resolveSlot (analyze_pass1 dep ns) t sh)) ∧
    ((add_unique_tensor (add_unique_tensor (analyze_pass1 dep ns) n1 t sh) n2 t sh).mapping n2 t
        = some (resolveSlot (analyze_pass1 dep ns) t sh)) ∧
    (((analyze_pass1 dep ns).tensorShapes t).find? (fun p => decide (p.2 = sh')) = none →
      (add_unique_tensor (add_unique_tensor (analyze_pass1 dep ns) n1 t sh) n2 t sh').mapping n2 t
          = some ((add_unique_tensor (analyze_pass1 dep ns) n1 t sh).num + 1) ∧
        (add_unique_tensor (analyze_pass1 dep ns) n1 t sh).num + 1
          ≠ resolveSlot (analyze_pass1 dep ns) t sh) := by
  set s0 := analyze_pass1 dep ns with hs0
  have hinv : RInv s0 := RInv_analyze_pass1 dep ns
  set s1 := add_unique_tensor s0 n1 t sh with hs1
  have hinv1 : RInv s1 := RInv_add s0 n1 t sh hinv
  refine ⟨?_, ?_, ?_, ?_, ?_⟩
  · intro u k k' s hk hk'
    exact hinv.uniq u k k' s hk hk'
  · intro u k s s' hk hk'
    have h1 := hinv.shapeOf u k s hk
    have h2 := hinv.shapeOf u k s' hk'
    rw [h1] at h2
    exact Option.some.injEq .. ▸ h2
  · exact add_unique_tensor_mapping_self s0 n1 t sh
  · have hrec : (resolveSlot s0 t sh, sh) ∈ s1.tensorShapes t :=
      add_unique_tensor_records s0 n1 t sh
    have := add_unique_tensor_mapping_self s1 n2 t sh
    rw [RInv_resolve_of_mem hinv1 hrec] at this
    exact this
  · intro hf0
    -- the new shape is still unrecorded in `s1`
    have hoft : ¬ s1.originals t = false := by
      have hrec : (resolveSlot s0 t sh, sh) ∈ s1.tensorShapes t :=
        add_unique_tensor_records s0 n1 t sh
      intro hc
      rw [hinv1.unseen t hc] at hrec
      simp at hrec
    have hf1 : (s1.tensorShapes t).find? (fun p => decide (p.2 = sh')) = none := by
      rw [List.find?_eq_none]
      intro p hp
      by_cases ho : s0.originals t = false
      · rw [hs1, add_unseen_ts s0 n1 t sh ho t, if_pos rfl] at hp
        rcases List.mem_cons.mp hp with hp | hp
        · obtain ⟨-, hsh⟩ := Prod.mk.injEq .. ▸ hp
          simp only [decide_eq_true_eq, hsh]
          exact fun hc => hne hc.symm
        · rw [hs0] at hp
          have := List.find?_eq_none.mp hf0 p hp
          simpa using this
      · rcases hfsh : (s0.tensorShapes t).find? (fun p => decide (p.2 = sh)) with _ | pr
        · rw [hs1, add_nf_ts s0 n1 t sh ho hfsh t, if_pos rfl] at hp
          rcases List.mem_cons.mp hp with hp | hp
          · obtain ⟨-, hsh⟩ := Prod.mk.injEq .. ▸ hp
            simp only [decide_eq_true_eq, hsh]
            exact fun hc => hne hc.symm
          · rw [hs0] at hp
            have := List.find?_eq_none.mp hf0 p hp
            simpa using this
        · rw [hs1, add_found_ts s0 n1 t sh pr ho hfsh t, hs0] at hp
          have := List.find?_eq_none.mp hf0 p hp
          simpa using this
    constructor
    · have := add_unique_tensor_mapping_self s1 n2 t sh'
      rw [resolve_eq_notfound s1 t sh' hoft hf1] at this
      exact this
    · have hle : resolveSlot s0 t sh ≤ s1.num := resolveSlot_le s0 t sh hinv n1
      omega

/-- Witness for `analyze_tensors_identity_resolution`: over the empty node
list and identifier `0`, a first occurrence with shape `[4]` gets slot `1`,
a repeat occurrence with shape `[4]` resolves to slot `1` again, and an
occurrence with the new shape `[8]` gets the fresh distinct slot `2`. -/
theorem analyze_tensors_identity_resolution_witness :
    ((add_unique_tensor (add_unique_tensor (analyze_pass1 (fun _ => false) []) 1 0 [4]) 2 0 [4]).mapping 2 0
      = some 1) ∧
    ((add_unique_tensor (add_unique_tensor (analyze_pass1 (fun _ => false) []) 1 0 [4]) 2 0 [8]).mapping 2 0
      = some 2) ∧ (2 : Nat) ≠ 1 := by
  have h := analyze_tensors_identity_resolution (fun _ => false) [] 1 2 0 [4] [8]
    (by decide)
  refine ⟨?_, ?_, by decide⟩
  · have h4 := h.2.2.2.1
    rw [h4]; rfl
  · have h5 := (h.2.2.2.2 (by rfl)).1
    rw [h5]; rfl

theorem mem_inSlots (dep : TId → Bool) (m : Nat → TId → Nat) (n : PNode) (k : Nat) :
    k ∈ inSlots dep m n ↔ ∃ r ∈ n.ins, dep r.tid = true ∧ m n.id r.tid = k := by
  unfold inSlots
  rw [List.mem_filterMap]
  constructor
  · rintro ⟨r, hr, hk⟩
    by_cases hd : dep r.tid = true
    · rw [if_pos hd] at hk
      exact ⟨r, hr, hd, Option.some.injEq .. ▸ hk⟩
    · rw [if_neg hd] at hk
      exact absurd hk (by simp)
  · rintro ⟨r, hr, hd, hk⟩
    exact ⟨r, hr, by rw [if_pos hd, hk]⟩

theorem mem_outSlots (dep : TId → Bool) (m : Nat → TId → Nat) (n : PNode) (k : Nat) :
    k ∈ outSlots dep m n ↔ ∃ r ∈ n.outs, dep r.tid = true ∧ m n.id r.tid = k := by
  unfold outSlots
  rw [List.mem_filterMap]
  constructor
  · rintro ⟨r, hr, hk⟩
    by_cases hd : dep r.tid = true
    · rw [if_pos hd] at hk
      exact ⟨r, hr, hd, Option.some.injEq .. ▸ hk⟩
    · rw [if_neg hd] at hk
      exact absurd hk (by simp)
  · rintro ⟨r, hr, hd, hk⟩
    exact ⟨r, hr, by rw [if_pos hd, hk]⟩

/-- Membership after a guarded cons-accumulating `foldl`. -/
theorem mem_foldl_guard {α β : Type} [DecidableEq β] (f : α → β) (p : α → Prop)
    [DecidablePred p] (l : List α) (acc : List β) (k : β) :
    (k ∈ l.foldl (fun a x => if p x then f x :: a else a) acc) ↔
      k ∈ acc ∨ ∃ x ∈ l, p x ∧ f x = k := by
  induction l generalizing acc with
  | nil => simp
  | cons x l ih =>
      simp only [List.foldl_cons, ih, List.mem_cons]
      by_cases hp : p x
      · rw [if_pos hp]
        constructor
        · rintro (h | h)
          · rcases List.mem_cons.mp h with h | h
            · exact Or.inr ⟨x, Or.inl rfl, hp, h.symm⟩
            · exact Or.inl h
          · rcases h with ⟨y, hy, hpy, hf⟩
            exact Or.inr ⟨y, Or.inr hy, hpy, hf⟩
        · rintro (h | ⟨y, hy, hpy, hf⟩)
          · exact Or.inl (List.mem_cons_of_mem _ h)
          · rcases hy with hy | hy
            · exact Or.inl (by rw [hy] at hf; rw [← hf]; exact List.mem_cons_self _ _)
            · exact Or.inr ⟨y, hy, hpy, hf⟩
      · rw [if_neg hp]
        constructor
        · rintro (h | ⟨y, hy, hpy, hf⟩)
          · exact Or.inl h
          · exact Or.inr ⟨y, Or.inr hy, hpy, hf⟩
        · rintro (h | ⟨y, hy, hpy, hf⟩)
          · exact Or.inl h
          · rcases hy with hy | hy
            · exact absurd (hy ▸ hpy) hp
            · exact Or.inr ⟨y, hy, hpy, hf⟩

theorem classify_node_fst_mem (dep : TId → Bool) (m : Nat → TId → Nat)
    (st : List Nat × List Nat) (n : PNode) (k : Nat) :
    k ∈ (classify_node dep m st n).1 ↔
      k ∈ st.1 ∨ (k ∈ inSlots dep m n ∧ k ∉ st.2) := by
  have hg := mem_foldl_guard (fun r : TRef => m n.id r.tid)
    (fun r : TRef => dep r.tid = true ∧ m n.id r.tid ∉ st.2) n.ins st.1 k
  constructor
  · intro h
    rcases hg.mp h with h | ⟨r, hr, ⟨hd, hns⟩, hf⟩
    · exact Or.inl h
    · exact Or.inr ⟨(mem_inSlots dep m n k).mpr ⟨r, hr, hd, hf⟩, hf ▸ hns⟩
  · intro h
    apply hg.mpr
    rcases h with h | ⟨hin, hns⟩
    · exact Or.inl h
    · obtain ⟨r, hr, hd, hf⟩ := (mem_inSlots dep m n k).mp hin
      exact Or.inr ⟨r, hr, ⟨hd, hf ▸ hns⟩, hf⟩

theorem classify_node_snd_mem (dep : TId → Bool) (m : Nat → TId → Nat)
    (st : List Nat × List Nat) (n : PNode) (k : Nat) :
    k ∈ (classify_node dep m st n).2 ↔ k ∈ st.2 ∨ k ∈ outSlots dep m n := by
  have hg := mem_foldl_guard (fun r : TRef => m n.id r.tid)
    (fun r : TRef => dep r.tid = true) n.outs st.2 k
  constructor
  · intro h
    rcases hg.mp h with h | ⟨r, hr, hd, hf⟩
    · exact Or.inl h
    · exact Or.inr ((mem_outSlots dep m n k).mpr ⟨r, hr, hd, hf⟩)
  · intro h
    apply hg.mpr
    rcases h with h | hout
    · exact Or.inl h
    · obtain ⟨r, hr, hd, hf⟩ := (mem_outSlots dep m n k).mp hout
      exact Or.inr ⟨r, hr, hd, hf⟩

theorem classify_fold_snd_mem (dep : TId → Bool) (m : Nat → TId → Nat) (k : Nat) :
    ∀ (ns : List PNode) (st : List Nat × List Nat),
      (k ∈ (ns.foldl (classify_node dep m) st).2 ↔
        k ∈ st.2 ∨ ∃ n ∈ ns, k ∈ outSlots dep m n) := by
  intro ns
  induction ns with
  | nil => simp
  | cons n ns ih =>
      intro st
      rw [List.foldl_cons, ih, classify_node_snd_mem]
      constructor
      · rintro ((h | h) | ⟨x, hx, hk⟩)
        · exact Or.inl h
        · exact Or.inr ⟨n, List.mem_cons_self .., h⟩
        · exact Or.inr ⟨x, List.mem_cons_of_mem _ hx, hk⟩
      · rintro (h | ⟨x, hx, hk⟩)
        · exact Or.inl (Or.inl h)
        · rcases List.mem_cons.mp hx with hx | hx
          · exact Or.inl (Or.inr (hx ▸ hk))
          · exact Or.inr ⟨x, hx, hk⟩

theorem classify_fold_fst_mem (dep : TId → Bool) (m : Nat → TId → Nat) (k : Nat) :
    ∀ (ns : List PNode) (st : List Nat × List Nat),
      (k ∈ (ns.foldl (classify_node dep m) st).1 ↔
        k ∈ st.1 ∨ ∃ pre n post, ns = pre ++ n :: post ∧ k ∈ inSlots dep m n ∧
          k ∉ st.2 ∧ ∀ n' ∈ pre, k ∉ outSlots dep m n') := by
  intro ns
  induction ns with
  | nil =>
      intro st
      constructor
      · intro h; exact Or.inl h
      · rintro (h | ⟨pre, n, post, hsplit, -⟩)
        · exact h
        · exact absurd hsplit (by simp)
  | cons n ns ih =>
      intro st
      rw [List.foldl_cons, ih, classify_node_fst_mem]
      constructor
      · rintro ((h | ⟨hin, hns⟩) | ⟨pre, x, post, hsplit, hin, hns, hpre⟩)
        · exact Or.inl h
        · exact Or.inr ⟨[], n, ns, rfl, hin, hns, by simp⟩
        · rw [classify_node_snd_mem] at hns
          push_neg at hns
          exact Or.inr ⟨n :: pre, x, post, by simp [hsplit], hin, hns.1, by
            intro n' hn'
            rcases List.mem_cons.mp hn' with hn' | hn'
            · rw [hn']; exact hns.2
            · exact hpre n' hn'⟩
      · rintro (h | ⟨pre, x, post, hsplit, hin, hns, hpre⟩)
        · exact Or.inl (Or.inl h)
        · rcases pre with _ | ⟨p0, pre⟩
          · rw [List.nil_append] at hsplit
            obtain ⟨hx, hpost⟩ := List.cons.injEq .. ▸ hsplit
            exact Or.inl (Or.inr ⟨hx ▸ hin, hns⟩)
          · rw [List.cons_append] at hsplit
            obtain ⟨hp0, htail⟩ := List.cons.injEq .. ▸ hsplit
            refine Or.inr ⟨pre, x, post, htail, hin, ?_, ?_⟩
            · rw [classify_node_snd_mem]
              push_neg
              exact ⟨hns, hp0 ▸ hpre p0 (List.mem_cons_self ..)⟩
            · intro n' hn'
              exact hpre n' (List.mem_cons_of_mem _ hn')

/-- C2.  A slot is placed in the instantiate set iff, scanning the qualified
nodes in order (the node list is `sorted_nodes`, ascending node id), the
slot appears among some node's tracked input slots with no strictly earlier
node producing it as a tracked output slot.  In particular a slot first
appearing as an output (or appearing only as an output) is never in the
instantiate set; a slot whose first appearance is as an input of the very
node that also outputs it is instantiated, since the source checks inputs
against the output set before recording the node's outputs. -/
theorem instantiate_set_iff_input_before_output (dep : TId → Bool)
    (m : Nat → TId → Nat) (ns : List PNode) (k : Nat) :
    k ∈ (classify dep m ns).1 ↔
      ∃ pre n post, ns = pre ++ n :: post ∧ k ∈ inSlots dep m n ∧
        ∀ n' ∈ pre, k ∉ outSlots dep m n' := by
  unfold classify
  rw [classify_fold_fst_mem]
  constructor
  · rintro (h | ⟨pre, n, post, hsplit, hin, -, hpre⟩)
    · exact absurd h (by simp)
    · exact ⟨pre, n, post, hsplit, hin, hpre⟩
  · rintro ⟨pre, n, post, hsplit, hin, hpre⟩
    exact Or.inr ⟨pre, n, post, hsplit, hin, by simp, hpre⟩

/-- Witness for `instantiate_set_iff_input_before_output`: a single node
consuming slot `5` (tracked input, no earlier producer) puts `5` in the
instantiate set, and the slot `6` it only outputs is not in the set. -/
theorem instantiate_set_iff_input_before_output_witness :
    (5 ∈ (classify (fun _ => true) (fun _ t => t)
        [{ id := 1, name := "aten::add", ins := [⟨"Tensor(float)", 5, [4]⟩],
           outs := [⟨"Tensor(float)", 6, [4]⟩], rawInputs := [], inputShapes := [] }]).1) ∧
    ¬ (6 ∈ (classify (fun _ => true) (fun _ t => t)
        [{ id := 1, name := "aten::add", ins := [⟨"Tensor(float)", 5, [4]⟩],
           outs := [⟨"Tensor(float)", 6, [4]⟩], rawInputs := [], inputShapes := [] }]).1) := by
  constructor
  · exact (instantiate_set_iff_input_before_output (fun _ => true) (fun _ t => t) _ 5).mpr
      ⟨[], _, [], rfl, by decide, by simp⟩
  · intro h
    obtain ⟨pre, n, post, hsplit, hin, -⟩ :=
      (instantiate_set_iff_input_before_output (fun _ => true) (fun _ t => t) _ 6).mp h
    rcases pre with _ | ⟨p0, pre⟩
    · rw [List.nil_append] at hsplit
      obtain ⟨hn, -⟩ := List.cons.injEq .. ▸ hsplit
      rw [← hn] at hin
      revert hin
      decide
    · rw [List.cons_append] at hsplit
      obtain ⟨-, htail⟩ := List.cons.injEq .. ▸ hsplit
      exact absurd htail (by simp)

theorem run_op_eq_skip {V : Type} (env : ReplayEnv V) (reg : Reg V) (n : PNode)
    (hf : env.hasFunc n = false) : run_op env reg n = Except.ok reg := by
  rw [run_op, if_pos hf]

theorem run_op_eq_inputs_none {V : Type} (env : ReplayEnv V) (reg : Reg V) (n : PNode)
    (hf : ¬ env.hasFunc n = false) (hi : get_inputs env reg n = none) :
    run_op env reg n = Except.error (resolutionErr n) := by
  rw [run_op, if_neg hf, hi]

theorem run_op_eq_inputs_some {V : Type} (env : ReplayEnv V) (reg : Reg V) (n : PNode)
    (args : List (ArgVal V))
    (hf : ¬ env.hasFunc n = false) (hi : get_inputs env reg n = some args) :
    run_op env reg n = run_op_patched env reg n args := by
  rw [run_op, if_neg hf, hi]

theorem run_op_patched_eq_none {V : Type} (env : ReplayEnv V) (reg : Reg V) (n : PNode)
    (args : List (ArgVal V)) (hp : patch_args n args = none) :
    run_op_patched env reg n args = Except.error (RunErr.uncaught n.id) := by
  rw [run_op_patched, hp]

theorem run_op_patched_eq_some {V : Type} (env : ReplayEnv V) (reg : Reg V) (n : PNode)
    (args args2 : List (ArgVal V)) (hp : patch_args n args = some args2) :
    run_op_patched env reg n args = run_op_invoke env reg n args2 := by
  rw [run_op_patched, hp]

theorem run_op_invoke_eq_none {V : Type} (env : ReplayEnv V) (reg : Reg V) (n : PNode)
    (args2 : List (ArgVal V)) (hv : env.invoke n args2 = none) :
    run_op_invoke env reg n args2 = Except.error (RunErr.reportedExit n.id) := by
  rw [run_op_invoke, hv]

theorem run_op_invoke_eq_some {V : Type} (env : ReplayEnv V) (reg : Reg V) (n : PNode)
    (args2 : List (ArgVal V)) (outs : List V) (hv : env.invoke n args2 = some outs) :
    run_op_invoke env reg n args2 =
      Except.ok (run_op_writes env.dep env.m env.unch env.inst n outs reg) := by
  rw [run_op_invoke, hv]

/-- If the write-back loop changed a slot, the slot was written by a
positionally paired tracked output and is neither unchangeable nor in the
instantiate set. -/
theorem run_op_writes_ne_imp {V : Type} (dep : TId → Bool) (m : Nat → TId → Nat)
    (unch inst : List Nat) (n : PNode) (k : Nat) :
    ∀ (l : List (TRef × V)) (reg : Reg V),
      (l.foldl (writeStep dep m unch inst n) reg) k ≠ reg k →
      k ∉ unch ∧ k ∉ inst ∧ ∃ pr ∈ l, dep pr.1.tid = true ∧ m n.id pr.1.tid = k := by
  intro l
  induction l with
  | nil => intro reg h; exact absurd rfl h
  | cons pr l ih =>
      intro reg h
      rw [List.foldl_cons] at h
      by_cases hne : (l.foldl (writeStep dep m unch inst n)
          (writeStep dep m unch inst n reg pr)) k ≠ (writeStep dep m unch inst n reg pr) k
      · obtain ⟨h1, h2, q, hq, hdq, hmq⟩ := ih _ hne
        exact ⟨h1, h2, q, List.mem_cons_of_mem _ hq, hdq, hmq⟩
      · push_neg at hne
        rw [hne] at h
        unfold writeStep at h
        by_cases hg : dep pr.1.tid = true ∧ m n.id pr.1.tid ∉ unch
        · by_cases hi : m n.id pr.1.tid ∉ inst
          · rw [if_pos hg, if_pos hi] at h
            by_cases hk : k = m n.id pr.1.tid
            · exact ⟨hk ▸ hg.2, hk ▸ hi, pr, List.mem_cons_self .., hg.1, hk.symm⟩
            · rw [if_neg hk] at h
              exact absurd rfl h
          · rw [if_pos hg, if_neg hi] at h
            exact absurd rfl h
        · rw [if_neg hg] at h
          exact absurd rfl h

/-- An unchangeable slot is untouched by the write-back loop. -/
theorem run_op_writes_unch {V : Type} (env : ReplayEnv V) (n : PNode)
    (outs : List V) (reg : Reg V) (k : Nat) (hk : k ∈ env.unch) :
    run_op_writes env.dep env.m env.unch env.inst n outs reg k = reg k := by
  by_cases h : run_op_writes env.dep env.m env.unch env.inst n outs reg k = reg k
  · exact h
  · obtain ⟨h1, -⟩ := run_op_writes_ne_imp env.dep env.m env.unch env.inst n k _ reg h
    exact absurd hk h1

/-- A successful `run_op` leaves unchangeable slots untouched. -/
theorem run_op_ok_unch {V : Type} (env : ReplayEnv V) (reg r : Reg V) (n : PNode)
    (k : Nat) (hk : k ∈ env.unch) (h : run_op env reg n = Except.ok r) :
    r k = reg k := by
  by_cases hf : env.hasFunc n = false
  · rw [run_op_eq_skip env reg n hf] at h
    obtain h := Except.ok.injEq .. ▸ h
    rw [← h]
  · rcases hi : get_inputs env reg n with _ | args
    · rw [run_op_eq_inputs_none env reg n hf hi] at h
      exact absurd h (by simp)
    · rw [run_op_eq_inputs_some env reg n args hf hi] at h
      rcases hp : patch_args n args with _ | args2
      · rw [run_op_patched_eq_none env reg n args hp] at h
        exact absurd h (by simp)
      · rw [run_op_patched_eq_some env reg n args args2 hp] at h
        rcases hv : env.invoke n args2 with _ | outs
        · rw [run_op_invoke_eq_none env reg n args2 hv] at h
          exact absurd h (by simp)
        · rw [run_op_invoke_eq_some env reg n args2 outs hv] at h
          obtain h := Except.ok.injEq .. ▸ h
          rw [← h]
          exact run_op_writes_unch env n outs reg k hk

/-- A completed replay pass leaves unchangeable slots untouched. -/
theorem replay_pass_unch {V : Type} (env : ReplayEnv V) (k : Nat) (hk : k ∈ env.unch) :
    ∀ (ns : List PNode) (reg r : Reg V),
      replay_pass env reg ns = Except.ok r → r k = reg k := by
  intro ns
  induction ns with
  | nil =>
      intro reg r h
      obtain h := Except.ok.injEq .. ▸ h
      rw [← h]
  | cons n ns ih =>
      intro reg r h
      unfold replay_pass at h
      rw [List.foldlM_cons] at h
      rcases h1 : run_op env reg n with e | r1
      · rw [h1] at h
        exact absurd (show (Except.error e : Except RunErr (Reg V)) = Except.ok r from h)
          (by simp)
      · rw [h1] at h
        have h2 : replay_pass env r1 ns = Except.ok r := h
        rw [ih r1 r h2]
        exact run_op_ok_unch env reg r1 n k hk h1

/-- A completed multi-pass replay leaves unchangeable slots untouched. -/
theorem replay_run_unch {V : Type} (env : ReplayEnv V) (ns : List PNode) (k : Nat)
    (hk : k ∈ env.unch) :
    ∀ (p : Nat) (reg r : Reg V), replay_run env ns p reg = Except.ok r → r k = reg k := by
  intro p
  induction p with
  | zero =>
      intro reg r h
      obtain h := Except.ok.injEq .. ▸ h
      rw [← h]
  | succ p ih =>
      intro reg r h
      unfold replay_run at h
      rcases h1 : replay_pass env reg ns with e | r1
      · rw [h1] at h; exact absurd h (by simp)
      · rw [h1] at h
        rw [ih r1 r h]
        exact replay_pass_unch env k hk ns reg r1 h1

/-- C3.  A positionally paired output overwrites the working-registry entry
of its slot only if the slot is tracked (nonzero dependency count on its
identifier), not unchangeable, and not in the instantiate set; consequently
an unchangeable slot's registry entry survives every completed multi-pass
replay unchanged, whatever the operator callables return. -/
theorem run_op_unchangeable_guard {V : Type} (env : ReplayEnv V) :
    (∀ (reg : Reg V) (n : PNode) (outs : List V) (k : Nat),
        run_op_writes env.dep env.m env.unch env.inst n outs reg k ≠ reg k →
          k ∉ env.unch ∧ k ∉ env.inst ∧
            ∃ pr ∈ n.outs.zip outs, env.dep pr.1.tid = true ∧ env.m n.id pr.1.tid = k) ∧
    (∀ (k : Nat), k ∈ env.unch →
      ∀ (ns : List PNode) (p : Nat) (reg r : Reg V),
        replay_run env ns p reg = Except.ok r → r k = reg k) := by
  constructor
  · intro reg n outs k h
    exact run_op_writes_ne_imp env.dep env.m env.unch env.inst n k (n.outs.zip outs) reg h
  · intro k hk ns p reg r h
    exact replay_run_unch env ns k hk p reg r h

/-- Witness for `run_op_unchangeable_guard`: one completed pass over
`c3Node` writes slot `5` but leaves the unchangeable slot `3` bound to
`None` as before. -/
theorem run_op_unchangeable_guard_witness :
    (run_op_writes c3Env.dep c3Env.m c3Env.unch c3Env.inst c3Node [7, 8] c3Reg) 3
        = c3Reg 3 ∧
    (run_op_writes c3Env.dep c3Env.m c3Env.unch c3Env.inst c3Node [7, 8] c3Reg) 5
        = some (some 8) := by
  constructor
  · exact (run_op_unchangeable_guard c3Env).2 3 (by decide) [c3Node] 1 c3Reg
      (run_op_writes c3Env.dep c3Env.m c3Env.unch c3Env.inst c3Node [7, 8] c3Reg) rfl
  · rfl

/-- C8.  Any exception during argument resolution or operator invocation is
fatal for the whole run.  (1) When `get_inputs` raises (it catches, prints
the node id, and returns Python `None`), `run_op` terminates the process:
for `aten::convolution_backward`/`aten::mul` the workaround line raises
uncaught, otherwise `func(*None)` raises inside the `try` and the handler
prints the node context and exits — either way an error attributed to the
failing node.  (2) When a patch workaround raises, the process dies
uncaught.  (3) When the invocation raises, the handler exits with the node
context.  (4) A pass stops at the first fatal node: no later node runs. -/
theorem replay_exception_fatal {V : Type} (env : ReplayEnv V) :
    (∀ (reg : Reg V) (n : PNode), ¬ env.hasFunc n = false →
        get_inputs env reg n = none →
        run_op env reg n = Except.error (resolutionErr n) ∧
          errNode (resolutionErr n) = n.id) ∧
    (∀ (reg : Reg V) (n : PNode) (args : List (ArgVal V)), ¬ env.hasFunc n = false →
        get_inputs env reg n = some args → patch_args n args = none →
        run_op env reg n = Except.error (RunErr.uncaught n.id)) ∧
    (∀ (reg : Reg V) (n : PNode) (args args2 : List (ArgVal V)),
        ¬ env.hasFunc n = false →
        get_inputs env reg n = some args → patch_args n args = some args2 →
        env.invoke n args2 = none →
        run_op env reg n = Except.error (RunErr.reportedExit n.id)) ∧
    (∀ (ns1 ns2 : List PNode) (n : PNode) (reg r : Reg V) (e : RunErr),
        replay_pass env reg ns1 = Except.ok r → run_op env r n = Except.error e →
        replay_pass env reg (ns1 ++ n :: ns2) = Except.error e) := by
  refine ⟨?_, ?_, ?_, ?_⟩
  · intro reg n hf hi
    refine ⟨run_op_eq_inputs_none env reg n hf hi, ?_⟩
    unfold resolutionErr
    by_cases hn : n.name = "aten::convolution_backward" ∨ n.name = "aten::mul"
    · rw [if_pos hn]; rfl
    · rw [if_neg hn]; rfl
  · intro reg n args hf hi hp
    rw [run_op_eq_inputs_some env reg n args hf hi]
    exact run_op_patched_eq_none env reg n args hp
  · intro reg n args args2 hf hi hp hv
    rw [run_op_eq_inputs_some env reg n args hf hi,
      run_op_patched_eq_some env reg n args args2 hp]
    exact run_op_invoke_eq_none env reg n args2 hv
  · intro ns1 ns2 n reg r e h1 h2
    unfold replay_pass at h1 ⊢
    rw [List.foldlM_append, h1]
    have hred : (Except.ok r >>= fun r' =>
        (n :: ns2).foldlM (fun a b => run_op env a b) r') =
        (n :: ns2).foldlM (fun a b => run_op env a b) r := rfl
    rw [hred, List.foldlM_cons, h2]
    rfl

/-- Witness for `replay_exception_fatal`: under an environment whose
invocation raises, the single-node pass aborts with the `exit(1)` error
carrying the failing node id `4`, and a pass with a successor node aborts
identically (the successor never runs). -/
theorem replay_exception_fatal_witness :
    run_op c8Env c3Reg c8Node = Except.error (RunErr.reportedExit 4) ∧
    replay_pass c8Env c3Reg ([] ++ c8Node :: [c3Node]) =
      Except.error (RunErr.reportedExit 4) := by
  have h3 := (replay_exception_fatal c8Env).2.2.1 c3Reg c8Node [] [] (by decide) rfl rfl rfl
  refine ⟨h3, ?_⟩
  exact (replay_exception_fatal c8Env).2.2.2 [] [c3Node] c8Node c3Reg c3Reg
    (RunErr.reportedExit 4) rfl h3

theorem dfs_traverse_eq (qual : PNode → Bool) (g : GNode) :
    dfs_traverse qual g = dfs_list qual g.children := by
  rcases g with ⟨p, cs⟩
  rfl

theorem dfs_list_of_mem_qual (qual : PNode → Bool) (c : GNode)
    (hs : skipNode c.payload = false) (hq : qual c.payload = true) :
    ∀ cs : List GNode, c ∈ cs → c.payload ∈ dfs_list qual cs := by
  intro cs
  induction cs with
  | nil => intro h; exact absurd h (by simp)
  | cons g rest ih =>
      intro h
      rcases g with ⟨p, gcs⟩
      rw [dfs_list]
      rcases List.mem_cons.mp h with h | h
      · subst h
        rw [show (GNode.mk p gcs).payload = p from rfl] at hs hq
        rw [show (GNode.mk p gcs).payload = p from rfl]
        rw [if_neg (by rw [hs]; exact Bool.false_ne_true), if_pos hq]
        exact List.mem_append_left _ (List.mem_singleton.mpr rfl)
      · exact List.mem_append_right _ (ih h)

theorem dfs_list_of_mem_nonqual (qual : PNode → Bool) (c : GNode) (p : PNode)
    (hs : skipNode c.payload = false) (hq : qual c.payload = false)
    (hp : p ∈ dfs_traverse qual c) :
    ∀ cs : List GNode, c ∈ cs → p ∈ dfs_list qual cs := by
  intro cs
  induction cs with
  | nil => intro h; exact absurd h (by simp)
  | cons g rest ih =>
      intro h
      rcases g with ⟨q, gcs⟩
      rw [dfs_list]
      rcases List.mem_cons.mp h with h | h
      · subst h
        rw [show (GNode.mk q gcs).payload = q from rfl] at hs hq
        rw [if_neg (by rw [hs]; exact Bool.false_ne_true),
          if_neg (by rw [hq]; exact Bool.false_ne_true)]
        rw [show dfs_traverse qual (GNode.mk q gcs) = dfs_list qual gcs from rfl] at hp
        exact List.mem_append_left _ hp
      · exact List.mem_append_right _ (ih h)

theorem mem_dfs_list_cases (qual : PNode → Bool) (p : PNode) :
    ∀ cs : List GNode, p ∈ dfs_list qual cs →
      ∃ c ∈ cs, skipNode c.payload = false ∧
        ((qual c.payload = true ∧ c.payload = p) ∨
          (qual c.payload = false ∧ p ∈ dfs_traverse qual c)) := by
  intro cs
  induction cs with
  | nil => intro h; rw [dfs_list] at h; exact absurd h (by simp)
  | cons g rest ih =>
      intro h
      rcases g with ⟨q, gcs⟩
      rw [dfs_list] at h
      rcases List.mem_append.mp h with h | h
      · by_cases hsk : skipNode q
        · rw [if_pos hsk] at h
          exact absurd h (by simp)
        · rw [if_neg hsk] at h
          by_cases hq : qual q
          · rw [if_pos hq] at h
            refine ⟨GNode.mk q gcs, List.mem_cons_self .., ?_, Or.inl ⟨hq, ?_⟩⟩
            · rw [show (GNode.mk q gcs).payload = q from rfl]
              exact Bool.not_eq_true _ ▸ hsk
            · rw [show (GNode.mk q gcs).payload = q from rfl]
              exact (List.mem_singleton.mp h).symm
          · rw [if_neg hq] at h
            refine ⟨GNode.mk q gcs, List.mem_cons_self .., ?_, Or.inr ⟨?_, ?_⟩⟩
            · rw [show (GNode.mk q gcs).payload = q from rfl]
              exact Bool.not_eq_true _ ▸ hsk
            · rw [show (GNode.mk q gcs).payload = q from rfl]
              exact Bool.not_eq_true _ ▸ hq
            · rw [show dfs_traverse qual (GNode.mk q gcs) = dfs_list qual gcs from rfl]
              exact h
      · obtain ⟨c, hc, hcs, hcase⟩ := ih h
        exact ⟨c, List.mem_cons_of_mem _ hc, hcs, hcase⟩

theorem dfs_mem_to_reach (qual : PNode → Bool) :
    ∀ (N : Nat) (g : GNode), sizeOf g ≤ N → ∀ p, p ∈ dfs_traverse qual g →
      ∃ c : GNode, ReachNQ qual g c ∧ qual c.payload = true ∧ c.payload = p := by
  intro N
  induction N with
  | zero =>
      intro g hg p hp
      rcases g with ⟨q, gcs⟩
      simp at hg
  | succ N ih =>
      intro g hg p hp
      rcases g with ⟨q, gcs⟩
      rw [show dfs_traverse qual (GNode.mk q gcs) = dfs_list qual gcs from rfl] at hp
      obtain ⟨c, hc, hcs, hcase⟩ := mem_dfs_list_cases qual p gcs hp
      have hcmem : c ∈ (GNode.mk q gcs).children := hc
      rcases hcase with ⟨hq, hcp⟩ | ⟨hq, hcp⟩
      · exact ⟨c, ReachNQ.here hcmem hcs, hq, hcp⟩
      · have hszc : sizeOf c < sizeOf (GNode.mk q gcs) := by
          have h1 : sizeOf c < sizeOf gcs := List.sizeOf_lt_of_mem hc
          simp only [GNode.mk.sizeOf_spec]
          omega
        have hle : sizeOf c ≤ N := by omega
        obtain ⟨d, hd, hdq, hdp⟩ := ih c hle p hcp
        exact ⟨d, ReachNQ.step hcmem hcs hq hd, hdq, hdp⟩

theorem reach_to_dfs_mem (qual : PNode → Bool) (g c : GNode)
    (hr : ReachNQ qual g c) (hq : qual c.payload = true) :
    c.payload ∈ dfs_traverse qual g := by
  induction hr with
  | here hc hcs =>
      rw [dfs_traverse_eq]
      exact dfs_list_of_mem_qual qual _ hcs hq _ hc
  | step hc hcs hnq hr ih =>
      rw [dfs_traverse_eq]
      exact dfs_list_of_mem_nonqual qual _ _ hcs hnq (ih hq) _ hc

/-- C4.  A payload is recorded by the extraction traversal from `root` iff
it belongs to a qualified, non-skipped node reached through a chain of
non-skipped, NON-qualified ancestors below `root`: qualified nodes are
recorded and their subtrees are not entered (no strictly deeper node is
recorded through them), while non-qualified, non-skipped nodes are not
recorded themselves but their children are traversed. -/
theorem extract_subgraph_dfs_characterization (qual : PNode → Bool)
    (g : GNode) (p : PNode) :
    p ∈ dfs_traverse qual g ↔
      ∃ c : GNode, ReachNQ qual g c ∧ qual c.payload = true ∧ c.payload = p := by
  constructor
  · intro hp
    exact dfs_mem_to_reach qual (sizeOf g) g (Nat.le_refl _) p hp
  · rintro ⟨c, hr, hq, hp⟩
    rw [← hp]
    exact reach_to_dfs_mem qual g c hr hq

/-- Witness for `extract_subgraph_dfs_characterization`: in `c4Tree` the
qualified grandchild `c4a` (below the non-qualified `c4b`) is recorded, and
the qualified node `c4d` hidden below the qualified `c4a` is not. -/
theorem extract_subgraph_dfs_characterization_witness :
    c4a ∈ dfs_traverse c4qual c4Tree ∧ c4d ∉ dfs_traverse c4qual c4Tree := by
  constructor
  · exact (extract_subgraph_dfs_characterization c4qual c4Tree c4a).mpr
      ⟨GNode.mk c4a [GNode.mk c4d []],
        ReachNQ.step (List.mem_cons_self ..) (by decide) (by decide)
          (ReachNQ.here (List.mem_cons_self ..) (by decide)),
        by decide, rfl⟩
  · intro hmem
    obtain ⟨c, hr, hq, hp⟩ :=
      (extract_subgraph_dfs_characterization c4qual c4Tree c4d).mp hmem
    cases hr with
    | here hc hcs =>
        cases hc with
        | head =>
            rw [← hp] at hq
            revert hq
            decide
        | tail _ hc =>
            cases hc with
            | head => revert hcs; decide
            | tail _ hc => cases hc
    | step hc hcs hnq hr2 =>
        cases hc with
        | head =>
            cases hr2 with
            | here hc2 hcs2 =>
                cases hc2 with
                | head => revert hp; decide
                | tail _ hc2 => cases hc2
            | step hc2 hcs2 hnq2 hr3 =>
                cases hc2 with
                | head => revert hnq2; decide
                | tail _ hc2 => cases hc2
        | tail _ hc =>
            cases hc with
            | head => revert hcs; decide
            | tail _ hc => cases hc

/-- C10.  The ancestor walk of the dependency analyzer is partial: it
returns a result iff some ancestor in the chain is qualified — so the
analysis pass is total only under the unstated precondition that every such
node has a qualified ancestor; a node without one makes the walk exhaust
the chain and the pass fail instead of returning.  When it returns, it
returns the NEAREST qualified ancestor: a prefix of strictly unqualified
ancestors precedes it. -/
theorem ancestor_walk_total_iff_qualified_ancestor (sorted : List PNode)
    (chain : List PNode) :
    ((find_qualified_ancestor sorted chain).isSome = true ↔ ∃ a ∈ chain, a ∈ sorted) ∧
    (∀ a, find_qualified_ancestor sorted chain = some a →
      a ∈ sorted ∧ ∃ pre post, chain = pre ++ a :: post ∧ ∀ x ∈ pre, x ∉ sorted) := by
  induction chain with
  | nil =>
      refine ⟨?_, ?_⟩
      · rw [find_qualified_ancestor]
        simp
      · intro a h
        rw [find_qualified_ancestor] at h
        exact absurd h (by simp)
  | cons b rest ih =>
      refine ⟨?_, ?_⟩
      · rw [find_qualified_ancestor]
        by_cases hb : b ∈ sorted
        · rw [if_pos hb]
          simp only [Option.isSome_some, true_iff]
          exact ⟨b, List.mem_cons_self .., hb⟩
        · rw [if_neg hb]
          rw [ih.1]
          constructor
          · rintro ⟨a, ha, has⟩
            exact ⟨a, List.mem_cons_of_mem _ ha, has⟩
          · rintro ⟨a, ha, has⟩
            rcases List.mem_cons.mp ha with ha | ha
            · exact absurd (ha ▸ has) hb
            · exact ⟨a, ha, has⟩
      · intro a h
        rw [find_qualified_ancestor] at h
        by_cases hb : b ∈ sorted
        · rw [if_pos hb] at h
          obtain h := Option.some.injEq .. ▸ h
          refine ⟨h ▸ hb, [], rest, by rw [h, List.nil_append], by simp⟩
        · rw [if_neg hb] at h
          obtain ⟨has, pre, post, hsplit, hpre⟩ := ih.2 a h
          refine ⟨has, b :: pre, post, by rw [List.cons_append, hsplit], ?_⟩
          intro x hx
          rcases List.mem_cons.mp hx with hx | hx
          · exact hx ▸ hb
          · exact hpre x hx

/-- Witness for `ancestor_walk_total_iff_qualified_ancestor`: with the
qualified list `[c4a]`, the chain `[c4b, c4a]` yields a result (the
nearest qualified ancestor, past the unqualified `c4b`), while the chain
`[c4b]` with no qualified ancestor exhausts — the pass fails. -/
theorem ancestor_walk_total_iff_qualified_ancestor_witness :
    (find_qualified_ancestor [c4a] [c4b, c4a]).isSome = true ∧
    ¬ (find_qualified_ancestor [c4a] [c4b]).isSome = true := by
  constructor
  · exact (ancestor_walk_total_iff_qualified_ancestor [c4a] [c4b, c4a]).1.mpr
      ⟨c4a, by decide, by decide⟩
  · intro h
    obtain ⟨a, ha, has⟩ := (ancestor_walk_total_iff_qualified_ancestor [c4a] [c4b]).1.mp h
    have ha2 : a = c4b := List.mem_singleton.mp ha
    have has2 : a = c4a := List.mem_singleton.mp has
    rw [ha2] at has2
    revert has2
    decide

theorem bfs_nil (isFbF isFbB : PNode → Bool) (st : List Nat) :
    build_func_state isFbF isFbB st [] = (st, []) := rfl

theorem bfs_cons (isFbF isFbB : PNode → Bool) (st : List Nat) (n : PNode)
    (rest : List PNode) :
    build_func_state isFbF isFbB st (n :: rest) =
      if isFbF n then build_func_state isFbF isFbB (n.id :: st) rest
      else if isFbB n then
        ((build_func_state isFbF isFbB st.tail rest).1,
          (n.id, st.head?) :: (build_func_state isFbF isFbB st.tail rest).2)
      else build_func_state isFbF isFbB st rest := rfl

theorem bfs_cons_fwd (isFbF isFbB : PNode → Bool) (st : List Nat) (n : PNode)
    (rest : List PNode) (hf : isFbF n = true) :
    build_func_state isFbF isFbB st (n :: rest) =
      build_func_state isFbF isFbB (n.id :: st) rest := by
  rw [bfs_cons, if_pos hf]

theorem bfs_cons_bwd (isFbF isFbB : PNode → Bool) (st : List Nat) (n : PNode)
    (rest : List PNode) (hf : isFbF n = false) (hb : isFbB n = true) :
    build_func_state isFbF isFbB st (n :: rest) =
      ((build_func_state isFbF isFbB st.tail rest).1,
        (n.id, st.head?) :: (build_func_state isFbF isFbB st.tail rest).2) := by
  rw [bfs_cons, if_neg (by rw [hf]; exact Bool.false_ne_true), if_pos hb]

theorem bfs_cons_other (isFbF isFbB : PNode → Bool) (st : List Nat) (n : PNode)
    (rest : List PNode) (hf : isFbF n = false) (hb : isFbB n = false) :
    build_func_state isFbF isFbB st (n :: rest) =
      build_func_state isFbF isFbB st rest := by
  rw [bfs_cons, if_neg (by rw [hf]; exact Bool.false_ne_true),
    if_neg (by rw [hb]; exact Bool.false_ne_true)]

theorem build_func_state_append (isFbF isFbB : PNode → Bool) :
    ∀ (xs ys : List PNode) (st : List Nat),
      build_func_state isFbF isFbB st (xs ++ ys) =
        ((build_func_state isFbF isFbB (build_func_state isFbF isFbB st xs).1 ys).1,
          (build_func_state isFbF isFbB st xs).2 ++
            (build_func_state isFbF isFbB (build_func_state isFbF isFbB st xs).1 ys).2) := by
  intro xs
  induction xs with
  | nil =>
      intro ys st
      rw [List.nil_append, bfs_nil]
      simp
  | cons n xs ih =>
      intro ys st
      rw [List.cons_append]
      by_cases hf : isFbF n = true
      · rw [bfs_cons_fwd isFbF isFbB st n (xs ++ ys) hf, bfs_cons_fwd isFbF isFbB st n xs hf, ih]
      · have hf2 : isFbF n = false := Bool.not_eq_true _ ▸ hf
        by_cases hb : isFbB n = true
        · rw [bfs_cons_bwd isFbF isFbB st n (xs ++ ys) hf2 hb,
            bfs_cons_bwd isFbF isFbB st n xs hf2 hb, ih]
          simp
        · have hb2 : isFbB n = false := Bool.not_eq_true _ ▸ hb
          rw [bfs_cons_other isFbF isFbB st n (xs ++ ys) hf2 hb2,
            bfs_cons_other isFbF isFbB st n xs hf2 hb2, ih]

theorem nested_stack_restored (isFbF isFbB : PNode → Bool) {w : List PNode}
    (hw : Nested isFbF isFbB w) :
    ∀ st : List Nat, (build_func_state isFbF isFbB st w).1 = st := by
  induction hw with
  | nil => intro st; rfl
  | other hf hb _ ih =>
      intro st
      rw [bfs_cons_other _ _ _ _ _ hf hb]
      exact ih st
  | wrap hf hb hfb _ _ ihw ihv =>
      intro st
      rw [List.cons_append, bfs_cons_fwd _ _ _ _ _ hf, build_func_state_append]
      rw [ihw (_ :: st)]
      rw [bfs_cons_bwd _ _ _ _ _ hfb hb]
      rw [show ∀ x : Nat, (x :: st).tail = st from fun _ => rfl]
      exact ihv st

/-- C6.  Strict LIFO pairing of the fbgemm forward/backward stack: for any
trace-order-nested block `w` between a forward node `f` and its matching
backward node `b`, processing `f :: w ++ [b]` from any stack (1) restores
the stack — the nested block pops exactly what it pushes — and (2) pairs
`b` with the backward entry pushed by exactly `f`, not with anything pushed
inside `w`; the pairs collected inside `w` are undisturbed.  Instantiating
the same statement at each inner wrap pairs every backward node of a nested
sequence with its matching forward node. -/
theorem build_func_lifo_pairing (isFbF isFbB : PNode → Bool) (f b : PNode)
    (w : List PNode) (st : List Nat) (hf : isFbF f = true) (hb : isFbB b = true)
    (hfb : isFbF b = false) (hw : Nested isFbF isFbB w) :
    (build_func_state isFbF isFbB st (f :: w ++ [b])).1 = st ∧
    (build_func_state isFbF isFbB st (f :: w ++ [b])).2 =
      (build_func_state isFbF isFbB (f.id :: st) w).2 ++ [(b.id, some f.id)] := by
  rw [List.cons_append, bfs_cons_fwd isFbF isFbB st f (w ++ [b]) hf, build_func_state_append]
  rw [nested_stack_restored isFbF isFbB hw (f.id :: st)]
  rw [bfs_cons_bwd isFbF isFbB (f.id :: st) b [] hfb hb]
  constructor
  · rfl
  · rfl

/-- Witness for `build_func_lifo_pairing`: processing
`[c6f, c6f2, c6b2, c6b]` from the empty stack pairs the inner backward
`c6b2` (id 3) with the inner forward `c6f2` (id 2) and the outer backward
`c6b` (id 4) with the outer forward `c6f` (id 1), restoring the stack. -/
theorem build_func_lifo_pairing_witness :
    (build_func_state c6IsF c6IsB [] (c6f :: [c6f2, c6b2] ++ [c6b])).1 = [] ∧
    (build_func_state c6IsF c6IsB [] (c6f :: [c6f2, c6b2] ++ [c6b])).2 =
      [(3, some 2), (4, some 1)] := by
  have hw : Nested c6IsF c6IsB [c6f2, c6b2] := by
    have h2 : ([c6f2, c6b2] : List PNode) = c6f2 :: [] ++ c6b2 :: [] := rfl
    rw [h2]
    exact Nested.wrap (by decide) (by decide) (by decide) Nested.nil Nested.nil
  have h := build_func_lifo_pairing c6IsF c6IsB c6f c6b [c6f2, c6b2] []
    (by decide) (by decide) (by decide) hw
  refine ⟨h.1, ?_⟩
  rw [h.2]
  rfl

theorem alloc_input_registry_cases (env : AllocEnv) (n : PNode) (st : AllocState)
    (p : Nat × TRef) (j : Nat) :
    (alloc_input env n st p).registry j = st.registry j ∨
      (j = env.m n.id p.2.tid ∧ env.dep p.2.tid = true ∧ st.registry j = none ∧
        (alloc_input env n st p).registry j = some (fireValue env n p.1 p.2)) := by
  unfold alloc_input
  by_cases hc : env.dep p.2.tid = true ∧ (st.registry (env.m n.id p.2.tid)).isNone = true ∧
      (n.name = "aten::embedding_bag" ∨
        n.name = "fbgemm::split_embedding_codegen_lookup_sgd_function" ∨
        env.m n.id p.2.tid ∈ env.inst)
  · rw [if_pos hc]
    by_cases hj : j = env.m n.id p.2.tid
    · right
      refine ⟨hj, hc.1, ?_, ?_⟩
      · rw [hj]
        exact Option.isNone_iff_eq_none.mp hc.2.1
      · show (if j = env.m n.id p.2.tid then some (fireValue env n p.1 p.2)
            else st.registry j) = some (fireValue env n p.1 p.2)
        rw [if_pos hj]
    · left
      show (if j = env.m n.id p.2.tid then some (fireValue env n p.1 p.2)
          else st.registry j) = st.registry j
      rw [if_neg hj]
  · rw [if_neg hc]
    exact Or.inl rfl

theorem alloc_input_null_pres (env : AllocEnv) (n : PNode) (st : AllocState)
    (p : Nat × TRef) (j : Nat) (h : st.registry j = some none) :
    (alloc_input env n st p).registry j = some none := by
  rcases alloc_input_registry_cases env n st p j with hc | ⟨-, -, hc, -⟩
  · rw [hc, h]
  · rw [h] at hc
    exact absurd hc (by simp)

theorem alloc_fold_null_pres (env : AllocEnv) (n : PNode) (j : Nat) :
    ∀ (l : List (Nat × TRef)) (st : AllocState), st.registry j = some none →
      (l.foldl (alloc_input env n) st).registry j = some none := by
  intro l
  induction l with
  | nil => intro st h; exact h
  | cons p l ih =>
      intro st h
      rw [List.foldl_cons]
      exact ih _ (alloc_input_null_pres env n st p j h)

/-- Exhaustive outcome analysis of the embedding-bag offsets patch:
a non-embedding-bag node passes through; an embedding-bag node either
crashes (missing shape subscript, zero offsets length, missing or
non-tensor `inputs[2]`, or a slot not bound to a tensor) or rewrites
exactly its offsets slot with the synthetic layout. -/
theorem patch_cases (env : AllocEnv) (n : PNode) (st : AllocState) :
    (¬ n.name = "aten::embedding_bag" ∧ patch_embedding_bag env n st = Except.ok st) ∨
    (n.name = "aten::embedding_bag" ∧
      patch_embedding_bag env n st = Except.error (AllocErr.patchCrash n.id)) ∨
    (n.name = "aten::embedding_bag" ∧
      ∃ t b, n.rawInputs[2]? = some (InItem.tensor t) ∧
        st.registry (env.m n.id t) = some (some b) ∧
        patch_embedding_bag env n st = Except.ok
          { st with registry := fun j =>
              if j = env.m n.id t then some (some (embBagPatch n b))
              else st.registry j }) := by
  by_cases hname : n.name = "aten::embedding_bag"
  · rcases h1 : (n.inputShapes[1]?).bind List.head? with _ | L
    · refine Or.inr (Or.inl ⟨hname, ?_⟩)
      rw [patch_embedding_bag, if_pos hname, h1]
    · rcases h2 : (n.inputShapes[2]?).bind List.head? with _ | o
      · refine Or.inr (Or.inl ⟨hname, ?_⟩)
        rw [patch_embedding_bag, if_pos hname, h1, h2]
      · rcases h3 : n.rawInputs[2]? with _ | it
        · refine Or.inr (Or.inl ⟨hname, ?_⟩)
          rw [patch_embedding_bag, if_pos hname, h1, h2, h3]
        · cases it with
          | tensor t =>
              by_cases ho : o = 0
              · refine Or.inr (Or.inl ⟨hname, ?_⟩)
                rw [patch_embedding_bag, if_pos hname, h1, h2, h3]
                show (if o = 0 then Except.error (AllocErr.patchCrash n.id)
                    else patch_apply env n st t) = Except.error (AllocErr.patchCrash n.id)
                rw [if_pos ho]
              · rcases hreg : st.registry (env.m n.id t) with _ | ov
                · refine Or.inr (Or.inl ⟨hname, ?_⟩)
                  rw [patch_embedding_bag, if_pos hname, h1, h2, h3]
                  show (if o = 0 then Except.error (AllocErr.patchCrash n.id)
                      else patch_apply env n st t) = Except.error (AllocErr.patchCrash n.id)
                  rw [if_neg ho, patch_apply, hreg]
                · rcases ov with _ | b
                  · refine Or.inr (Or.inl ⟨hname, ?_⟩)
                    rw [patch_embedding_bag, if_pos hname, h1, h2, h3]
                    show (if o = 0 then Except.error (AllocErr.patchCrash n.id)
                        else patch_apply env n st t) = Except.error (AllocErr.patchCrash n.id)
                    rw [if_neg ho, patch_apply, hreg]
                  · refine Or.inr (Or.inr ⟨hname, t, b, rfl, hreg, ?_⟩)
                    rw [patch_embedding_bag, if_pos hname, h1, h2, h3]
                    show (if o = 0 then Except.error (AllocErr.patchCrash n.id)
                        else patch_apply env n st t) = Except.ok _
                    rw [if_neg ho, patch_apply, hreg]
          | tensorList ts =>
              refine Or.inr (Or.inl ⟨hname, ?_⟩)
              rw [patch_embedding_bag, if_pos hname, h1, h2, h3]
          | noneLit =>
              refine Or.inr (Or.inl ⟨hname, ?_⟩)
              rw [patch_embedding_bag, if_pos hname, h1, h2, h3]
          | infLit ng =>
              refine Or.inr (Or.inl ⟨hname, ?_⟩)
              rw [patch_embedding_bag, if_pos hname, h1, h2, h3]
          | lit s =>
              refine Or.inr (Or.inl ⟨hname, ?_⟩)
              rw [patch_embedding_bag, if_pos hname, h1, h2, h3]
  · exact Or.inl ⟨hname, by rw [patch_embedding_bag, if_neg hname]⟩

/-- A failed offsets patch belongs to an embedding-bag node and reports
that node's id. -/
theorem patch_error_name (env : AllocEnv) (n : PNode) (st : AllocState) (e : AllocErr)
    (h : patch_embedding_bag env n st = Except.error e) :
    n.name = "aten::embedding_bag" ∧ e = AllocErr.patchCrash n.id := by
  rcases patch_cases env n st with ⟨hn, he⟩ | ⟨hn, he⟩ | ⟨hn, t, b, -, -, he⟩
  · rw [he] at h
    exact absurd h (by simp)
  · rw [he] at h
    exact ⟨hn, (Except.error.injEq .. ▸ h).symm⟩
  · rw [he] at h
    exact absurd h (by simp)

/-- A successful offsets patch either leaves a slot unchanged or rewrites
exactly the offsets slot, which held a tensor before. -/
theorem patch_ok_registry_cases (env : AllocEnv) (n : PNode) (st st2 : AllocState)
    (hok : patch_embedding_bag env n st = Except.ok st2) (j : Nat) :
    st2.registry j = st.registry j ∨
      ∃ t b, n.rawInputs[2]? = some (InItem.tensor t) ∧ j = env.m n.id t ∧
        st.registry j = some (some b) ∧
        st2.registry j = some (some (embBagPatch n b)) := by
  rcases patch_cases env n st with ⟨-, he⟩ | ⟨-, he⟩ | ⟨-, t, b, hraw, hreg, he⟩
  · rw [he] at hok
    obtain h2 := Except.ok.injEq .. ▸ hok
    left
    rw [← h2]
  · rw [he] at hok
    exact absurd hok (by simp)
  · rw [he] at hok
    obtain h2 := Except.ok.injEq .. ▸ hok
    by_cases hj : j = env.m n.id t
    · right
      refine ⟨t, b, hraw, hj, ?_, ?_⟩
      · rw [hj]
        exact hreg
      · rw [← h2]
        show (if j = env.m n.id t then some (some (embBagPatch n b))
            else st.registry j) = some (some (embBagPatch n b))
        rw [if_pos hj]
    · left
      rw [← h2]
      show (if j = env.m n.id t then some (some (embBagPatch n b))
          else st.registry j) = st.registry j
      rw [if_neg hj]

theorem patch_ok_null_pres (env : AllocEnv) (n : PNode) (st st2 : AllocState) (j : Nat)
    (hok : patch_embedding_bag env n st = Except.ok st2)
    (h : st.registry j = some none) : st2.registry j = some none := by
  rcases patch_ok_registry_cases env n st st2 hok j with hc | ⟨t, b, -, -, hv, -⟩
  · rw [hc, h]
  · rw [h] at hv
    exact absurd hv (by simp)

theorem allocate_node_ok_null_pres (env : AllocEnv) (st st2 : AllocState) (n : PNode)
    (j : Nat) (hok : allocate_node env st n = Except.ok st2)
    (h : st.registry j = some none) : st2.registry j = some none := by
  unfold allocate_node at hok
  exact patch_ok_null_pres env n _ st2 j hok (alloc_fold_null_pres env n j _ st h)

theorem allocate_tensors_ok_null_pres (env : AllocEnv) (j : Nat) :
    ∀ (ns : List PNode) (st st2 : AllocState),
      allocate_tensors env st ns = Except.ok st2 →
      st.registry j = some none → st2.registry j = some none := by
  intro ns
  induction ns with
  | nil =>
      intro st st2 hok h
      have h2 : Except.ok st = Except.ok st2 := hok
      obtain h3 := Except.ok.injEq .. ▸ h2
      rw [← h3]
      exact h
  | cons n ns ih =>
      intro st st2 hok h
      unfold allocate_tensors at hok
      rw [List.foldlM_cons] at hok
      rcases h1 : allocate_node env st n with e | r1
      · rw [h1] at hok
        exact absurd (show (Except.error e : Except AllocErr AllocState) = Except.ok st2
          from hok) (by simp)
      · rw [h1] at hok
        have hok2 : allocate_tensors env r1 ns = Except.ok st2 := hok
        exact ih r1 st2 hok2 (allocate_node_ok_null_pres env st r1 n j h1 h)

/-- A failed node allocation is a patch crash of that (embedding-bag)
node. -/
theorem allocate_node_error_name (env : AllocEnv) (st : AllocState) (n : PNode)
    (e : AllocErr) (h : allocate_node env st n = Except.error e) :
    n.name = "aten::embedding_bag" ∧ e = AllocErr.patchCrash n.id := by
  unfold allocate_node at h
  exact patch_error_name env n _ e h

/-- A failed allocation run died in the offsets patch of one of its
embedding-bag nodes; the dtype-table miss of the binding loop is never
itself fatal. -/
theorem allocate_tensors_error_origin (env : AllocEnv) :
    ∀ (ns : List PNode) (st : AllocState) (e : AllocErr),
      allocate_tensors env st ns = Except.error e →
      ∃ n ∈ ns, n.name = "aten::embedding_bag" ∧ e = AllocErr.patchCrash n.id := by
  intro ns
  induction ns with
  | nil =>
      intro st e h
      exact absurd (show (Except.ok st : Except AllocErr AllocState) = Except.error e
        from h) (by simp)
  | cons n ns ih =>
      intro st e h
      unfold allocate_tensors at h
      rw [List.foldlM_cons] at h
      rcases h1 : allocate_node env st n with e0 | r1
      · rw [h1] at h
        have h2 : (Except.error e0 : Except AllocErr AllocState) = Except.error e := h
        obtain h3 := Except.error.injEq .. ▸ h2
        obtain ⟨hn, he⟩ := allocate_node_error_name env st n e0 h1
        exact ⟨n, List.mem_cons_self .., hn, by rw [← h3, he]⟩
      · rw [h1] at h
        have h2 : allocate_tensors env r1 ns = Except.error e := h
        obtain ⟨n', hn', hr⟩ := ih r1 e h2
        exact ⟨n', List.mem_cons_of_mem _ hn', hr⟩

/-- C7 (amended).  A `TORCH_DTYPES_RNG` miss for the declared element type
of an input slot being materialized binds the slot to `None`, and the miss
itself is never fatal — the binding loop continues, and the only way an
allocation run can die is the embedding-bag offsets patch:
(1) whenever the run over the remaining nodes completes, the slot bound to
`None` by the miss is still bound to `None` at the end (later guarded
bindings see it as bound, and the patch rewrites tensor-valued bindings
only); (2) any allocation failure is an offsets-patch crash of an
embedding-bag node — never the miss itself; (3) at replay, resolving a
null-bound slot as an input does not raise: `get_inputs` passes Python
`None` through, so that failure surfaces only at invocation.  The deferral
to replay is NOT unconditional: when an embedding-bag node's offsets input
resolves to the null-bound slot, the in-place patch raises during
allocation (`allocate_missing_dtype_claim_cex`). -/
theorem allocate_missing_dtype_binds_null (env : AllocEnv) (st : AllocState)
    (n : PNode) (r : TRef) (rest : List TRef) (ns : List PNode)
    (hins : n.ins = r :: rest)
    (hfb : env.isFbF n = false)
    (hdep : env.dep r.tid = true)
    (hub : st.registry (env.m n.id r.tid) = none)
    (hname : n.name = "aten::embedding_bag" ∨
      n.name = "fbgemm::split_embedding_codegen_lookup_sgd_function" ∨
      env.m n.id r.tid ∈ env.inst)
    (hmiss : env.rngTable (stripDType r.dtype) = none) :
    (∀ res : AllocState, allocate_tensors env st (n :: ns) = Except.ok res →
        res.registry (env.m n.id r.tid) = some none) ∧
    (∀ (ns' : List PNode) (st' : AllocState) (e : AllocErr),
        allocate_tensors env st' ns' = Except.error e →
        ∃ n' ∈ ns', n'.name = "aten::embedding_bag" ∧ e = AllocErr.patchCrash n'.id) ∧
    (∀ (V : Type) (renv : ReplayEnv V) (reg : Reg V) (n' : PNode) (t : TId),
      renv.isFbF n' = false → n'.rawInputs = [InItem.tensor t] →
      reg (renv.m n'.id t) = some none →
      get_inputs renv reg n' = some [ArgVal.nullArg]) := by
  refine ⟨?_, ?_, ?_⟩
  · intro res hok
    set k := env.m n.id r.tid with hk
    have hfire : (alloc_input env n st (0, r)).registry k = some none := by
      have hcond : env.dep (0, r).2.tid = true ∧
          (st.registry (env.m n.id (0, r).2.tid)).isNone = true ∧
          (n.name = "aten::embedding_bag" ∨
            n.name = "fbgemm::split_embedding_codegen_lookup_sgd_function" ∨
            env.m n.id (0, r).2.tid ∈ env.inst) := by
        refine ⟨hdep, ?_, hname⟩
        rw [show (0, r).2 = r from rfl, ← hk, hub]
        rfl
      rw [alloc_input, if_pos hcond]
      show (if k = env.m n.id (0, r).2.tid then some (fireValue env n (0, r).1 (0, r).2)
          else st.registry k) = some none
      rw [if_pos rfl]
      have hval : fireValue env n (0, r).1 (0, r).2 = none := by
        rw [fireValue, if_neg (by rw [hfb]; exact Bool.false_ne_true), hmiss]
      rw [hval]
    have hs1 : (n.ins.enum.foldl (alloc_input env n) st).registry k = some none := by
      have henum : n.ins.enum = (0, r) :: rest.enumFrom 1 := by
        rw [hins]
        rfl
      rw [henum, List.foldl_cons]
      exact alloc_fold_null_pres env n k (rest.enumFrom 1) _ hfire
    unfold allocate_tensors at hok
    rw [List.foldlM_cons] at hok
    rcases h1 : allocate_node env st n with e | r1
    · rw [h1] at hok
      exact absurd (show (Except.error e : Except AllocErr AllocState) = Except.ok res
        from hok) (by simp)
    · rw [h1] at hok
      have hok2 : allocate_tensors env r1 ns = Except.ok res := hok
      have hr1 : r1.registry k = some none := by
        unfold allocate_node at h1
        exact patch_ok_null_pres env n _ r1 k h1 hs1
      exact allocate_tensors_ok_null_pres env k ns r1 res hok2 hr1
  · intro ns' st' e h
    exact allocate_tensors_error_origin env ns' st' e h
  · intro V renv reg n' t hfb' hraw hreg
    rw [get_inputs, if_neg (by rw [hfb']; exact Bool.false_ne_true), hraw]
    have hrs : readSlot reg (renv.m n'.id t) = some ArgVal.nullArg := by
      rw [readSlot, hreg]
    show (readSlot reg (renv.m n'.id t)).bind
        (fun b => some [b] : ArgVal V → Option (List (ArgVal V))) = some [ArgVal.nullArg]
    rw [hrs]
    rfl

/-- Counterexample to C7 as stated: a dtype-table miss on the offsets
input of an `aten::embedding_bag` node binds the offsets slot to `None`,
and that node's own in-place offsets patch then raises — the run dies
DURING allocation, so the failure of the miss is not deferred to the first
replay-time use and allocation does not continue. -/
theorem allocate_missing_dtype_claim_cex :
    cexA.name = "aten::embedding_bag" ∧
    c7cEnv.rngTable (stripDType "Tensor(long)") = none ∧
    c7cEnv.dep 2 = true ∧
    cexSt.registry (c7cEnv.m cexA.id 2) = none ∧
    allocate_tensors c7cEnv cexSt [cexA] =
      Except.error (AllocErr.patchCrash cexA.id) := by
  refine ⟨rfl, rfl, by decide, rfl, ?_⟩
  rfl

/-- Witness for `allocate_missing_dtype_binds_null`: allocating `c7Node`
(followed by a second non-embedding-bag node) under the empty dtype table
completes, leaving slot `5` bound to `None`, and a replay-time
`get_inputs` on the null-bound slot succeeds with Python `None` as the
argument. -/
theorem allocate_missing_dtype_binds_null_witness :
    c7Final.registry 5 = some none ∧
    (get_inputs c3Env (fun _ => some none) c7Node = some [ArgVal.nullArg]) := by
  have h := allocate_missing_dtype_binds_null c7Env c7St c7Node
    ⟨"Tensor(float)", 5, [4]⟩ [] [c8Node] rfl rfl rfl rfl
    (Or.inr (Or.inr (by decide))) rfl
  exact ⟨h.1 c7Final rfl, h.2.2 Nat c3Env (fun _ => some none) c7Node 5 rfl rfl rfl⟩

/-! ## The embedding-bag offsets patch (C9)

The patch runs once per `aten::embedding_bag` node, after that node's
binding loop, and overwrites the offsets buffer in place with entries
`i * (L / O)` taken from THAT node's recorded `input_shapes`.  Because the
registry is keyed by replay slot and the binding loop never rebinds a bound
slot, two embedding-bag nodes whose offsets resolve to the same slot
(same identifier, same shape) but whose indices lengths differ make the
later patch overwrite the earlier one — so "after tensor allocation, for
EVERY embedding-bag node the buffer equals i * (L/O) of that node" is
false; the property holds per node immediately after its allocation step
(equivalently, after allocation for the last embedding-bag node binding
each offsets slot). -/

/-- A successful embedding-bag patch found a tensor at the offsets slot
and rewrote exactly that slot with the synthetic layout. -/
theorem patch_ok_at_slot (env : AllocEnv) (n : PNode) (st st2 : AllocState) (t : TId)
    (hname : n.name = "aten::embedding_bag")
    (hraw : n.rawInputs[2]? = some (InItem.tensor t))
    (hok : patch_embedding_bag env n st = Except.ok st2) :
    ∃ b0, st.registry (env.m n.id t) = some (some b0) ∧
      st2.registry (env.m n.id t) = some (some (embBagPatch n b0)) := by
  rcases patch_cases env n st with ⟨hn, -⟩ | ⟨-, he⟩ | ⟨-, t', b0, hraw', hreg, he⟩
  · exact absurd hname hn
  · rw [he] at hok
    exact absurd hok (by simp)
  · rw [hraw'] at hraw
    have h1 := Option.some.injEq .. ▸ hraw
    have ht : t' = t := InItem.tensor.injEq .. ▸ h1
    subst ht
    rw [he] at hok
    obtain h2 := Except.ok.injEq .. ▸ hok
    refine ⟨b0, hreg, ?_⟩
    rw [← h2]
    show (if env.m n.id t' = env.m n.id t' then some (some (embBagPatch n b0))
        else st.registry (env.m n.id t')) = some (some (embBagPatch n b0))
    rw [if_pos rfl]

/-- C9 (amended).  Immediately after the allocator processes an
`aten::embedding_bag` node — and hence after full allocation whenever no
later embedding-bag node shares its offsets slot — any buffer bound to the
slot of its offset-style input `node.inputs[2]` satisfies
`b i = i * (L / O)` for every `i < O`, with `L` the recorded
indices-tensor length, `O` the offsets-tensor length and `/` exact
(Python-true) division. -/
theorem embedding_bag_patch_per_node (env : AllocEnv) (st : AllocState) (n : PNode)
    (t : TId) (b : Buf) (st2 : AllocState)
    (hname : n.name = "aten::embedding_bag")
    (hraw : n.rawInputs[2]? = some (InItem.tensor t))
    (hok : allocate_node env st n = Except.ok st2)
    (hres : st2.registry (env.m n.id t) = some (some b)) :
    ∀ i : Nat, i < embBagO n →
      b i = (i : ℚ) * ((embBagL n : ℚ) / (embBagO n : ℚ)) := by
  intro i hi
  unfold allocate_node at hok
  obtain ⟨b0, -, hw⟩ := patch_ok_at_slot env n _ st2 t hname hraw hok
  rw [hw] at hres
  have h1 := Option.some.injEq .. ▸ hres
  have hb : b = embBagPatch n b0 := (Option.some.injEq .. ▸ h1).symm
  rw [hb, embBagPatch, if_pos hi]

/-- Counterexample to C9 as stated: allocation of `cexNodes` completes,
yet the buffer bound to the offsets slot of embedding-bag node `cexA` does
NOT equal `i * (L/O)` for `cexA`'s recorded lengths at `i = 1` — the later
embedding-bag node `cexB` shares the slot and re-patched the buffer with
its own indices length. -/
theorem embedding_bag_patch_claim_cex :
    cexA.name = "aten::embedding_bag" ∧
    cexA ∈ cexNodes ∧
    cexDep 2 = true ∧
    allocate_tensors cexEnv cexSt cexNodes = Except.ok cexFinal ∧
    1 < embBagO cexA ∧
    bufAt cexFinal.registry (cexM cexA.id 2) 1 ≠
      ((1 : Nat) : ℚ) * ((embBagL cexA : ℚ) / (embBagO cexA : ℚ)) := by
  refine ⟨rfl, by decide, by decide, rfl, by decide, ?_⟩
  have heval : bufAt cexFinal.registry (cexM cexA.id 2) 1 =
      ((1 : Nat) : ℚ) * (((8 : Nat) : ℚ) / ((2 : Nat) : ℚ)) := rfl
  have hL : embBagL cexA = 4 := rfl
  have hO : embBagO cexA = 2 := rfl
  rw [heval, hL, hO]
  push_cast
  norm_num

/-- Witness for `embedding_bag_patch_per_node`: processing `cexA` alone
from the empty state succeeds with state `c9Mid`, binding and patching its
offsets buffer, whose entry 1 equals `1 * (4 / 2)`. -/
theorem embedding_bag_patch_per_node_witness :
    embBagPatch cexA (fun _ => (0 : ℚ)) 1 =
      ((1 : Nat) : ℚ) * ((embBagL cexA : ℚ) / (embBagO cexA : ℚ)) := by
  exact embedding_bag_patch_per_node cexEnv cexSt cexA 2
    (embBagPatch cexA (fun _ => (0 : ℚ))) c9Mid rfl rfl rfl rfl 1 (by decide)

/-! ## Untracked identifiers are ignored everywhere (C5) -/

/-- Generic foldl preservation. -/
theorem foldl_pres {σ α : Type} (P : σ → Prop) (f : σ → α → σ)
    (hf : ∀ s a, P s → P (f s a)) :
    ∀ (l : List α) (s : σ), P s → P (l.foldl f s) := by
  intro l
  induction l with
  | nil => intro s hs; exact hs
  | cons a l ih =>
      intro s hs
      rw [List.foldl_cons]
      exact ih _ (hf s a hs)

theorem add_other_mapping (s : RState) (nid : Nat) (t0 : TId) (sh : Shape)
    (n : Nat) (t : TId) (ht : t ≠ t0) :
    (add_unique_tensor s nid t0 sh).mapping n t = s.mapping n t := by
  by_cases ho : s.originals t0 = false
  · rw [add_unseen_mapping s nid t0 sh ho n t, if_neg (fun hc => ht hc.2)]
  · rcases hf : (s.tensorShapes t0).find? (fun p => decide (p.2 = sh)) with _ | pr
    · rw [add_nf_mapping s nid t0 sh ho hf n t, if_neg (fun hc => ht hc.2)]
    · rw [add_found_mapping s nid t0 sh pr ho hf n t, if_neg (fun hc => ht hc.2)]

theorem add_other_ts (s : RState) (nid : Nat) (t0 : TId) (sh : Shape)
    (t : TId) (ht : t ≠ t0) :
    (add_unique_tensor s nid t0 sh).tensorShapes t = s.tensorShapes t := by
  by_cases ho : s.originals t0 = false
  · rw [add_unseen_ts s nid t0 sh ho t, if_neg ht]
  · rcases hf : (s.tensorShapes t0).find? (fun p => decide (p.2 = sh)) with _ | pr
    · rw [add_nf_ts s nid t0 sh ho hf t, if_neg ht]
    · rw [add_found_ts s nid t0 sh pr ho hf t]

theorem pass1_untracked (dep : TId → Bool) (t : TId) (ht : dep t = false)
    (ns : List PNode) : untracked_state t (analyze_pass1 dep ns) := by
  have hstep : ∀ (nid : Nat) (s : RState) (r : TRef),
      untracked_state t s →
      untracked_state t (if dep r.tid = true then add_unique_tensor s nid r.tid r.shape
        else s) := by
    intro nid s r hP
    by_cases hd : dep r.tid = true
    · rw [if_pos hd]
      have hne : t ≠ r.tid := by
        intro hc
        rw [hc] at ht
        rw [ht] at hd
        exact Bool.false_ne_true hd
      constructor
      · intro n
        rw [add_other_mapping s nid r.tid r.shape n t hne]
        exact hP.1 n
      · rw [add_other_ts s nid r.tid r.shape t hne]
        exact hP.2
    · rw [if_neg hd]
      exact hP
  have hnode : ∀ (s : RState) (n : PNode),
      untracked_state t s → untracked_state t (analyze_pass1_node dep s n) := by
    intro s n hP
    unfold analyze_pass1_node
    refine foldl_pres (untracked_state t) _ (fun s1 r h1 => hstep n.id s1 r h1) n.outs _ ?_
    exact foldl_pres (untracked_state t) _ (fun s1 r h1 => hstep n.id s1 r h1) n.ins s hP
  unfold analyze_pass1
  exact foldl_pres (untracked_state t) (analyze_pass1_node dep) hnode ns initR
    ⟨fun _ => rfl, rfl⟩

theorem classify_inst_origin (dep : TId → Bool) (m : Nat → TId → Nat)
    (ns : List PNode) (k : Nat) (h : k ∈ (classify dep m ns).1) :
    ∃ n ∈ ns, ∃ r ∈ n.ins, dep r.tid = true ∧ m n.id r.tid = k := by
  unfold classify at h
  rcases (classify_fold_fst_mem dep m k ns ([], [])).mp h with h0 |
    ⟨pre, n, post, hsplit, hin, -, -⟩
  · exact absurd h0 (by simp)
  · obtain ⟨r, hr, hd, hm⟩ := (mem_inSlots dep m n k).mp hin
    exact ⟨n, by rw [hsplit]; exact List.mem_append_right _ (List.mem_cons_self ..),
      r, hr, hd, hm⟩

theorem enumFrom_snd_mem {α : Type} :
    ∀ (l : List α) (i : Nat) (p : Nat × α), p ∈ l.enumFrom i → p.2 ∈ l := by
  intro l
  induction l with
  | nil => intro i p h; exact absurd h (by simp)
  | cons a l ih =>
      intro i p h
      rw [show (a :: l).enumFrom i = (i, a) :: l.enumFrom (i + 1) from rfl] at h
      rcases List.mem_cons.mp h with h | h
      · rw [h]
        exact List.mem_cons_self ..
      · exact List.mem_cons_of_mem _ (ih (i + 1) p h)

theorem alloc_fold_origin (env : AllocEnv) (n : PNode) :
    ∀ (l : List (Nat × TRef)) (st : AllocState) (k : Nat), st.registry k = none →
      (l.foldl (alloc_input env n) st).registry k ≠ none →
      ∃ p ∈ l, env.dep p.2.tid = true ∧ env.m n.id p.2.tid = k := by
  intro l
  induction l with
  | nil => intro st k h0 h; exact absurd h0 h
  | cons p l ih =>
      intro st k h0 h
      rw [List.foldl_cons] at h
      by_cases h1 : (alloc_input env n st p).registry k = none
      · obtain ⟨q, hq, hd, hm⟩ := ih _ k h1 h
        exact ⟨q, List.mem_cons_of_mem _ hq, hd, hm⟩
      · rcases alloc_input_registry_cases env n st p k with hc | ⟨hj, hd, -, -⟩
        · rw [hc, h0] at h1
          exact absurd rfl h1
        · exact ⟨p, List.mem_cons_self .., hd, hj.symm⟩

theorem allocate_node_origin (env : AllocEnv) (st st2 : AllocState) (n : PNode)
    (k : Nat) (hok : allocate_node env st n = Except.ok st2)
    (h0 : st.registry k = none) (h : st2.registry k ≠ none) :
    ∃ r ∈ n.ins, env.dep r.tid = true ∧ env.m n.id r.tid = k := by
  unfold allocate_node at hok
  set st1 := n.ins.enum.foldl (alloc_input env n) st with hst1
  have hne : st1.registry k ≠ none := by
    intro hc
    rcases patch_ok_registry_cases env n st1 st2 hok k with hce | ⟨t, b, -, -, hv, -⟩
    · rw [hce, hc] at h
      exact h rfl
    · rw [hc] at hv
      exact absurd hv (by simp)
  obtain ⟨p, hp, hd, hm⟩ := alloc_fold_origin env n n.ins.enum st k h0 hne
  exact ⟨p.2, enumFrom_snd_mem n.ins 0 p hp, hd, hm⟩

theorem allocate_tensors_origin (env : AllocEnv) :
    ∀ (ns : List PNode) (st st2 : AllocState) (k : Nat),
      allocate_tensors env st ns = Except.ok st2 →
      st.registry k = none → st2.registry k ≠ none →
      ∃ n ∈ ns, ∃ r ∈ n.ins, env.dep r.tid = true ∧ env.m n.id r.tid = k := by
  intro ns
  induction ns with
  | nil =>
      intro st st2 k hok h0 h
      have h2 : Except.ok st = Except.ok st2 := hok
      obtain h3 := Except.ok.injEq .. ▸ h2
      rw [← h3, h0] at h
      exact absurd rfl h
  | cons n ns ih =>
      intro st st2 k hok h0 h
      unfold allocate_tensors at hok
      rw [List.foldlM_cons] at hok
      rcases h1 : allocate_node env st n with e | r1
      · rw [h1] at hok
        exact absurd (show (Except.error e : Except AllocErr AllocState) = Except.ok st2
          from hok) (by simp)
      · rw [h1] at hok
        have hok2 : allocate_tensors env r1 ns = Except.ok st2 := hok
        by_cases hr1 : r1.registry k = none
        · obtain ⟨n', hn', hr⟩ := ih r1 st2 k hok2 hr1 h
          exact ⟨n', List.mem_cons_of_mem _ hn', hr⟩
        · obtain ⟨r, hr, hd, hm⟩ := allocate_node_origin env st r1 n k h1 h0 hr1
          exact ⟨n, List.mem_cons_self .., r, hr, hd, hm⟩

/-- C5.  An identifier with zero dependency count (never a tracked input)
is ignored by the whole pipeline: (1) the identity resolver assigns it no
slot — it never enters `tensors_mapping` or `tensor_shapes`; (2) every
slot in the instantiate set originates from a tracked occurrence, whose
identifier is therefore not the untracked one; (3) a completed allocation run
binds a previously unbound slot only for a tracked input occurrence —
never for the untracked identifier; (4) a replay write-back changes a slot only for
a tracked paired output — never for the untracked identifier. -/
theorem zero_dependency_ignored (dep : TId → Bool) (t : TId) (ht : dep t = false) :
    (∀ (ns : List PNode) (n : Nat), (analyze_pass1 dep ns).mapping n t = none) ∧
    (∀ ns : List PNode, (analyze_pass1 dep ns).tensorShapes t = []) ∧
    (∀ (m : Nat → TId → Nat) (ns : List PNode) (k : Nat), k ∈ (classify dep m ns).1 →
      ∃ n ∈ ns, ∃ r ∈ n.ins, r.tid ≠ t ∧ dep r.tid = true ∧ m n.id r.tid = k) ∧
    (∀ (env : AllocEnv) (st st2 : AllocState) (ns : List PNode) (k : Nat),
      env.dep = dep → allocate_tensors env st ns = Except.ok st2 →
      st.registry k = none → st2.registry k ≠ none →
      ∃ n ∈ ns, ∃ r ∈ n.ins, r.tid ≠ t ∧ dep r.tid = true ∧ env.m n.id r.tid = k) ∧
    (∀ (V : Type) (env : ReplayEnv V) (reg : Reg V) (n : PNode) (outs : List V) (k : Nat),
      env.dep = dep →
      run_op_writes env.dep env.m env.unch env.inst n outs reg k ≠ reg k →
      ∃ pr ∈ n.outs.zip outs, pr.1.tid ≠ t ∧ dep pr.1.tid = true ∧
        env.m n.id pr.1.tid = k) := by
  have hnet : ∀ u, dep u = true → u ≠ t := by
    intro u hu hc
    rw [hc, ht] at hu
    exact Bool.false_ne_true hu
  refine ⟨?_, ?_, ?_, ?_, ?_⟩
  · intro ns n
    exact (pass1_untracked dep t ht ns).1 n
  · intro ns
    exact (pass1_untracked dep t ht ns).2
  · intro m ns k h
    obtain ⟨n, hn, r, hr, hd, hm⟩ := classify_inst_origin dep m ns k h
    exact ⟨n, hn, r, hr, hnet r.tid hd, hd, hm⟩
  · intro env st st2 ns k henv hok h0 h
    obtain ⟨n, hn, r, hr, hd, hm⟩ := allocate_tensors_origin env ns st st2 k hok h0 h
    rw [henv] at hd
    exact ⟨n, hn, r, hr, hnet r.tid hd, hd, hm⟩
  · intro V env reg n outs k henv h
    obtain ⟨-, -, pr, hpr, hd, hm⟩ :=
      run_op_writes_ne_imp env.dep env.m env.unch env.inst n k (n.outs.zip outs) reg h
    rw [henv] at hd
    exact ⟨pr, hpr, hnet pr.1.tid hd, hd, hm⟩

/-- Witness for `zero_dependency_ignored`: under the all-untracked gate, the
resolver leaves identifier `2` with no mapping entry and no recorded
shapes even after scanning `cexNodes`, and under the counterexample gate
the untracked identifier `9` is likewise absent. -/
theorem zero_dependency_ignored_witness :
    (analyze_pass1 (fun _ => false) cexNodes).mapping 1 2 = none ∧
    (analyze_pass1 (fun _ => false) cexNodes).tensorShapes 2 = [] ∧
    (analyze_pass1 cexDep cexNodes).mapping 1 9 = none := by
  have h1 := zero_dependency_ignored (fun _ => false) 2 rfl
  have h2 := zero_dependency_ignored cexDep 9 (by decide)
  exact ⟨h1.1 cexNodes 1, h1.2.1 cexNodes, h2.1 cexNodes 1⟩

end EgReplay
